import Mathlib

/-!
Shallow embedding of the adaptive mutation pipeline of the web editor
repository (server/services/intentService.js, contextService.js,
mutationService.js, validationService.js and server/utils/mergeHTML.js).

Strings are modelled as lists of characters; indices are character
positions (the JS code indexes UTF-16 code units, which agrees with
character positions on the basic multilingual plane).  Every regular
expression appearing in the source is modelled by an explicit scanning
function implementing the same matching semantics (leftmost match,
greedy/lazy quantifier behaviour, word boundaries, case-insensitivity by
lowercasing both sides).  Fallible JS code (throwing, or returning null)
is modelled with Option/Except.
-/

set_option autoImplicit false

abbrev Chars := List Char

/-- JS word character, regex class \w = [A-Za-z0-9_]. -/
def wordChar (c : Char) : Bool := c.isAlpha || c.isDigit || c = '_'

/-- JS whitespace as matched by regex \s and String.prototype.trim
(the ASCII part, which is all the pipeline ever meets). -/
def jsWs (c : Char) : Bool :=
  c = ' ' || c = '\t' || c = '\n' || c = '\r' || c = '\x0b' || c = '\x0c'

def lowerChars (l : Chars) : Chars := l.map Char.toLower

/-- The character at index `i`, if any. -/
def chAt (l : Chars) (i : Nat) : Option Char := l[i]?

/-- `pat` occurs literally at position `i` of `hay`. -/
def litAt (hay pat : Chars) (i : Nat) : Bool := pat.isPrefixOf (hay.drop i)

/-- The character at index `i` exists and satisfies `p`. -/
def charAtIs (l : Chars) (i : Nat) (p : Char → Bool) : Bool :=
  match l[i]? with
  | some c => p c
  | none => false

/-- Leftmost index `< n`, `≥ start`, satisfying `p`. -/
def firstIdxFrom (n start : Nat) (p : Nat → Bool) : Option Nat :=
  (List.range n).find? (fun i => start ≤ i && p i)

/-- Greatest index `< n`, `≥ start`, satisfying `p` (used for greedy
quantifiers that prefer the longest prefix). -/
def lastIdxFrom (n start : Nat) (p : Nat → Bool) : Option Nat :=
  ((List.range n).filter (fun i => start ≤ i && p i)).getLast?

/-- Maximal run of word characters starting at position `i`. -/
def wordRunFrom (l : Chars) (i : Nat) : Chars := (l.drop i).takeWhile wordChar

/-- Substring containment on character lists (JS String.prototype.includes). -/
def lcontains : Chars → Chars → Bool
  | [], n => n.isEmpty
  | c :: rest, n => n.isPrefixOf (c :: rest) || lcontains rest n

/-- JS `hay.includes(needle)`. -/
def containsStr (hay needle : String) : Bool := lcontains hay.data needle.data

/-- JS String.prototype.trim. -/
def jsTrimChars (l : Chars) : Chars :=
  ((l.dropWhile jsWs).reverse.dropWhile jsWs).reverse

def jsTrim (s : String) : String := String.mk (jsTrimChars s.data)

def toLowerStr (s : String) : String := String.mk (lowerChars s.data)

/-- Slice `[a, b)` of a character list (JS substring with `a ≤ b`). -/
def sliceChars (l : Chars) (a b : Nat) : Chars := (l.take b).drop a

/-!  ### intentService.js — keyword tables and the local tier heuristic  -/

/-- Layout-sensitive keywords (intentService.js line 43). -/
def LAYOUT_ACTIONS : List String :=
  ["align", "resize", "grid", "flex", "layout", "arrange", "reorder",
   "responsive", "stack", "position"]

/-- Complex multi-word phrases (intentService.js line 44). -/
def COMPLEX_ACTIONS : List String :=
  ["redesign", "rebuild", "build a", "generate a", "add section", "new page",
   "overhaul", "create a section", "create a page", "make a section",
   "make a page", "design a"]

/-- Simple CSS-only keywords (intentService.js line 45). -/
def SIMPLE_ACTIONS : List String :=
  ["color", "recolor", "font-size", "size", "opacity", "shadow", "border",
   "radius", "background", "margin", "padding", "text", "bold", "italic",
   "underline", "font", "spacing", "gap", "rounded", "transparent",
   "gradient", "red", "blue", "green", "white", "black", "yellow", "purple",
   "pink", "orange", "gray"]

/-- `keys.some(a => msg.includes(a))`. -/
def includesAny (msg : String) (keys : List String) : Bool :=
  keys.any (fun a => containsStr msg a)

/-- intentService.js `determineStrategy(action, normalizedMessage)`:
the fast local tier heuristic.  The `action` parameter is unused in the
source as well (it is always called with null). -/
def determineStrategy (action : Option String) (normalizedMessage : String) :
    String :=
  let _ := action
  let msg := toLowerStr normalizedMessage
  if includesAny msg SIMPLE_ACTIONS && !includesAny msg LAYOUT_ACTIONS then
    "simple"
  else if includesAny msg COMPLEX_ACTIONS then "full"
  else if includesAny msg LAYOUT_ACTIONS then "medium"
  else "medium"


/-!  ### JSON values and strict JSON.parse

The pipeline calls JSON.parse in trySelectionStrategy (contextService.js)
and in the tolerant response parser (mutationService.js).  We embed a
strict JSON parser.  Numbers keep their literal text (the pipeline only
ever tests values for truthiness or reads string fields).  A \u escape
is decoded with Char.ofNat; lone surrogates (which JS tolerates) fall
outside the model and are never used by the development.  -/

inductive JsonVal where
  | null
  | jbool (b : Bool)
  | num (lit : String)
  | str (s : String)
  | arr (elems : List JsonVal)
  | obj (fields : List (String × JsonVal))

/-- JSON whitespace (space, tab, line feed, carriage return). -/
def jsonWsChar (c : Char) : Bool :=
  c = ' ' || c = '\t' || c = '\n' || c = '\r'

def hexVal (c : Char) : Option Nat :=
  if c.isDigit then some (c.toNat - 48)
  else if 'a' ≤ c && c ≤ 'f' then some (c.toNat - 97 + 10)
  else if 'A' ≤ c && c ≤ 'F' then some (c.toNat - 65 + 10)
  else none

/-- Parse the body of a JSON string (the opening quote already consumed).
Returns the decoded characters and the input after the closing quote. -/
def parseJsonStr (fuel : Nat) (l : Chars) : Option (Chars × Chars) :=
  match fuel, l with
  | 0, _ => none
  | _, [] => none
  | fuel + 1, c :: rest =>
    if c = '"' then some ([], rest)
    else if c = '\\' then
      match rest with
      | [] => none
      | e :: rest2 =>
        let dec : Option (Char × Chars) :=
          if e = '"' then some ('"', rest2)
          else if e = '\\' then some ('\\', rest2)
          else if e = '/' then some ('/', rest2)
          else if e = 'b' then some ('\x08', rest2)
          else if e = 'f' then some ('\x0c', rest2)
          else if e = 'n' then some ('\n', rest2)
          else if e = 'r' then some ('\r', rest2)
          else if e = 't' then some ('\t', rest2)
          else if e = 'u' then
            match rest2 with
            | h1 :: h2 :: h3 :: h4 :: rest3 =>
              match hexVal h1, hexVal h2, hexVal h3, hexVal h4 with
              | some a, some b, some cdig, some d =>
                some (Char.ofNat (((a * 16 + b) * 16 + cdig) * 16 + d), rest3)
              | _, _, _, _ => none
            | _ => none
          else none
        match dec with
        | some (ch, rest3) =>
          match parseJsonStr fuel rest3 with
          | some (cs, r) => some (ch :: cs, r)
          | none => none
        | none => none
    else if c.toNat < 32 then none
    else
      match parseJsonStr fuel rest with
      | some (cs, r) => some (c :: cs, r)
      | none => none

/-- Parse a JSON number literal; returns the literal text and the rest. -/
def parseJsonNum (l : Chars) : Option (Chars × Chars) :=
  let (sign, l1) := match l with
    | '-' :: r => ([('-' : Char)], r)
    | _ => ([], l)
  let intPart : Option (Chars × Chars) :=
    match l1 with
    | '0' :: r => some (['0'], r)
    | c :: _ =>
      if c.isDigit && c ≠ '0' then
        some (l1.takeWhile Char.isDigit, l1.dropWhile Char.isDigit)
      else none
    | [] => none
  match intPart with
  | none => none
  | some (ip, l2) =>
    let (fp, l3) : Chars × Chars :=
      match l2 with
      | '.' :: r =>
        if charAtIs r 0 Char.isDigit then
          ('.' :: r.takeWhile Char.isDigit, r.dropWhile Char.isDigit)
        else ([], l2)
      | _ => ([], l2)
    if fp.isEmpty && charAtIs l2 0 (fun c => c = '.') then none
    else
      let expRes : Option (Chars × Chars) :=
        match l3 with
        | e :: r =>
          if e = 'e' || e = 'E' then
            let (sgn, r1) : Chars × Chars :=
              match r with
              | '+' :: r2 => (['+'], r2)
              | '-' :: r2 => (['-'], r2)
              | _ => ([], r)
            if charAtIs r1 0 Char.isDigit then
              some (e :: sgn ++ r1.takeWhile Char.isDigit,
                    r1.dropWhile Char.isDigit)
            else none
          else some ([], l3)
        | [] => some ([], l3)
      match expRes with
      | none => none
      | some (ep, l4) => some (sign ++ ip ++ fp ++ ep, l4)

mutual

/-- Parse one JSON value (leading whitespace allowed). -/
def parseJsonVal : Nat → Chars → Option (JsonVal × Chars)
  | 0, _ => none
  | fuel + 1, l =>
    let l := l.dropWhile jsonWsChar
    match l with
    | [] => none
    | c :: rest =>
      if c = 'n' then
        if litAt l ('n' :: ('u' :: ('l' :: ['l']))) 0 then
          some (.null, l.drop 4)
        else none
      else if c = 't' then
        if litAt l ('t' :: ('r' :: ('u' :: ['e']))) 0 then
          some (.jbool true, l.drop 4)
        else none
      else if c = 'f' then
        if litAt l ('f' :: ('a' :: ('l' :: ('s' :: ['e'])))) 0 then
          some (.jbool false, l.drop 5)
        else none
      else if c = '"' then
        match parseJsonStr (rest.length + 1) rest with
        | some (cs, r) => some (.str (String.mk cs), r)
        | none => none
      else if c = '[' then
        match rest.dropWhile jsonWsChar with
        | ']' :: r => some (.arr [], r)
        | _ =>
          match parseJsonArr fuel rest with
          | some (vs, r) => some (.arr vs, r)
          | none => none
      else if c = '\x7b' then
        match rest.dropWhile jsonWsChar with
        | '\x7d' :: r => some (.obj [], r)
        | _ =>
          match parseJsonObj fuel rest with
          | some (fs, r) => some (.obj fs, r)
          | none => none
      else if c = '-' || c.isDigit then
        match parseJsonNum l with
        | some (lit, r) => some (.num (String.mk lit), r)
        | none => none
      else none

/-- Parse the elements of a non-empty JSON array (after the bracket). -/
def parseJsonArr : Nat → Chars → Option (List JsonVal × Chars)
  | 0, _ => none
  | fuel + 1, l =>
    match parseJsonVal fuel l with
    | none => none
    | some (v, r) =>
      match r.dropWhile jsonWsChar with
      | ']' :: r2 => some ([v], r2)
      | ',' :: r2 =>
        match parseJsonArr fuel r2 with
        | some (vs, r3) => some (v :: vs, r3)
        | none => none
      | _ => none

/-- Parse the members of a non-empty JSON object (after the brace). -/
def parseJsonObj : Nat → Chars → Option (List (String × JsonVal) × Chars)
  | 0, _ => none
  | fuel + 1, l =>
    match l.dropWhile jsonWsChar with
    | '"' :: r =>
      match parseJsonStr (r.length + 1) r with
      | none => none
      | some (k, r1) =>
        match r1.dropWhile jsonWsChar with
        | ':' :: r2 =>
          match parseJsonVal fuel r2 with
          | none => none
          | some (v, r3) =>
            match r3.dropWhile jsonWsChar with
            | '\x7d' :: r4 => some ([(String.mk k, v)], r4)
            | ',' :: r4 =>
              match parseJsonObj fuel r4 with
              | some (fs, r5) => some ((String.mk k, v) :: fs, r5)
              | none => none
            | _ => none
        | _ => none
    | _ => none

end

/-- JS JSON.parse: parse one value and require only whitespace after it. -/
def jsonParse (s : String) : Option JsonVal :=
  match parseJsonVal (2 * s.length + 8) s.data with
  | some (v, rest) => if (rest.dropWhile jsonWsChar).isEmpty then some v else none
  | none => none

/-- Truthiness of a JS value obtained from JSON.parse. -/
def jsTruthy : JsonVal → Bool
  | .null => false
  | .jbool b => b
  | .num lit => !(lit.data.all (fun c => c = '0' || c = '-' || c = '.') )
  | .str s => !s.data.isEmpty
  | .arr _ => true
  | .obj _ => true

/-- Property lookup that models `parsed.field` returning a string:
some s when the field is a string, none when absent, null or non-string
(the pipeline only consumes string fields and truthiness). -/
def getStrField (v : JsonVal) (name : String) : Option String :=
  match v with
  | .obj fields =>
    match fields.find? (fun f => f.1 = name) with
    | some (_, .str s) => some s
    | _ => none
  | _ => none

/-- Truthiness of an optional string (JS: undefined/null/empty are falsy). -/
def truthyO : Option String → Bool
  | some s => !s.data.isEmpty
  | none => false


/-!  ### mergeHTML.js — selector patterns and the fragment merge engine

Each selector kind compiles (buildSelectorPattern) to a case-insensitive
regular expression; we model the four shapes structurally and implement
first-match semantics (leftmost start, greedy quantifiers, word
boundaries) by explicit scans over the lowercased character list.  -/

/-- The character before index `i`, if any (for word boundaries). -/
def prevCh (l : Chars) (i : Nat) : Option Char :=
  if i = 0 then none else chAt l (i - 1)

/-- JS regex word boundary \b between two (possibly absent) characters:
exactly one side is a word character. -/
def bTest (prev next : Option Char) : Bool :=
  (match prev with
   | some c => wordChar c
   | none => false) !=
  (match next with
   | some c => wordChar c
   | none => false)

/-- Match of `\bTOK\b` at position `i`: boundary before, the token
literally, boundary after.  An empty token degenerates to a single \b. -/
def wordTokenAt (h tok : Chars) (i : Nat) : Bool :=
  match tok with
  | [] => bTest (prevCh h i) (chAt h i)
  | f :: rest =>
    bTest (prevCh h i) (some f) && litAt h tok i &&
    bTest (some ((f :: rest).getLast (List.cons_ne_nil f rest))) (chAt h (i + tok.length))

/-- Match of `\bLIT` at position `i`: boundary before, then the literal. -/
def bLitAt (h lit : Chars) (i : Nat) : Bool :=
  bTest (prevCh h i) (chAt h i) && litAt h lit i

def quoteCh (c : Char) : Bool := c = '"' || c = '\x27'

/-- First index of a '>' at or after `a`. -/
def firstGtFrom (h : Chars) (a : Nat) : Option Nat :=
  firstIdxFrom h.length a (fun g => charAtIs h g (fun c => c = '>'))

/-- Tail `[^>]*\bid=["']ID["'][^>]*>` of the #id open-tag pattern,
starting right after the tag name (position `tagEnd`).  Returns the
index one past the closing '>'.  The leading `[^>]*` is greedy, so the
latest feasible attribute position is preferred. -/
def idTailMatch (h id : Chars) (tagEnd : Nat) : Option Nat :=
  let attrEnd := fun t => t + 4 + id.length + 1
  let okT := fun t =>
    tagEnd ≤ t &&
    (sliceChars h tagEnd t).all (fun c => c ≠ '>') &&
    bLitAt h ("id=".data) t &&
    charAtIs h (t + 3) quoteCh &&
    litAt h id (t + 4) &&
    charAtIs h (t + 4 + id.length) quoteCh &&
    (firstGtFrom h (attrEnd t)).isSome
  match lastIdxFrom h.length tagEnd okT with
  | none => none
  | some t =>
    match firstGtFrom h (attrEnd t) with
    | some g => some (g + 1)
    | none => none

/-- Inner part `[^"']*\bCLS\b[^"']*["']` of a class attribute value,
where `v` is the index right after the opening quote.  Returns the index
one past the closing quote. -/
def classValueMatch (h cls : Chars) (v : Nat) : Option Nat :=
  let okU := fun u =>
    v ≤ u &&
    (sliceChars h v u).all (fun c => !quoteCh c) &&
    wordTokenAt h cls u &&
    (firstIdxFrom h.length (u + cls.length) (fun m => charAtIs h m quoteCh)).isSome
  match lastIdxFrom h.length v okU with
  | none => none
  | some u =>
    match firstIdxFrom h.length (u + cls.length) (fun m => charAtIs h m quoteCh) with
    | some m => some (m + 1)
    | none => none

/-- Tail `[^>]*\bclass=["'][^"']*\bCLS\b[^"']*["'][^>]*>` of a class
open-tag pattern, starting right after the tag name. -/
def classTailMatch (h cls : Chars) (tagEnd : Nat) : Option Nat :=
  let inner := fun t =>
    if bLitAt h ("class=".data) t && charAtIs h (t + 6) quoteCh then
      match classValueMatch h cls (t + 7) with
      | some a => firstGtFrom h a
      | none => none
    else none
  let okT := fun t =>
    tagEnd ≤ t &&
    (sliceChars h tagEnd t).all (fun c => c ≠ '>') &&
    (inner t).isSome
  match lastIdxFrom h.length tagEnd okT with
  | none => none
  | some t =>
    match inner t with
    | some g => some (g + 1)
    | none => none

/-- `<(\w+)[^>]*\bid=["']ID["'][^>]*>` matched at position `p`.
Returns (end of the match, captured tag name). -/
def idOpenMatchAt (h id : Chars) (p : Nat) : Option (Nat × Chars) :=
  if charAtIs h p (fun c => c = '<') then
    let run := wordRunFrom h (p + 1)
    if run.isEmpty then none
    else
      match idTailMatch h id (p + 1 + run.length) with
      | some e => some (e, run)
      | none => none
  else none

/-- `<(\w+)[^>]*\bclass=["'][^"']*\bCLS\b[^"']*["'][^>]*>` at `p`. -/
def classOpenMatchAt (h cls : Chars) (p : Nat) : Option (Nat × Chars) :=
  if charAtIs h p (fun c => c = '<') then
    let run := wordRunFrom h (p + 1)
    if run.isEmpty then none
    else
      match classTailMatch h cls (p + 1 + run.length) with
      | some e => some (e, run)
      | none => none
  else none

/-- `<(TAG)[^>]*>` at `p` (note: no word boundary after the tag, exactly
as in the source, so the selector "div" also matches "<divx>"). -/
def tagOpenMatchAt (h tag : Chars) (p : Nat) : Option (Nat × Chars) :=
  if litAt h ('<' :: tag) p then
    match firstGtFrom h (p + 1 + tag.length) with
    | some g => some (g + 1, tag)
    | none => none
  else none

/-- `<(TAG)[^>]*\bclass=["'][^"']*\bCLS\b[^"']*["'][^>]*>` at `p`. -/
def tagClassOpenMatchAt (h tag cls : Chars) (p : Nat) : Option (Nat × Chars) :=
  if litAt h ('<' :: tag) p then
    match classTailMatch h cls (p + 1 + tag.length) with
    | some e => some (e, tag)
    | none => none
  else none

/-- The four selector shapes produced by buildSelectorPattern. -/
inductive SelPattern where
  | idPat (id : String)
  | classPat (cls : String)
  | tagPat (tag : String)
  | tagClassPat (tag cls : String)
deriving DecidableEq, Repr

/-- mergeHTML.js `buildSelectorPattern(selector)`: compiles a selector
into one of four regex shapes, or null for unsupported syntax. -/
def buildSelectorPattern (selector : String) : Option SelPattern :=
  let sel := jsTrimChars selector.data
  match sel with
  | '#' :: id => some (.idPat (String.mk id))
  | '.' :: cls => some (.classPat (String.mk cls))
  | _ =>
    if !sel.isEmpty && sel.all wordChar then some (.tagPat (String.mk sel))
    else
      let run := sel.takeWhile wordChar
      match sel.drop run.length with
      | '.' :: cls =>
        if !run.isEmpty && !cls.isEmpty then
          some (.tagClassPat (String.mk run) (String.mk cls))
        else none
      | _ => none

/-- The `tagName` field of the compiled pattern (null for #id/.class,
where mergeHTMLFragment lets findClosingTag rediscover it). -/
def tagNameOfPat : SelPattern → Option String
  | .idPat _ => none
  | .classPat _ => none
  | .tagPat t => some (toLowerStr t)
  | .tagClassPat t _ => some (toLowerStr t)

/-- `tagRegex.exec(fullHTML)`: leftmost match of the compiled pattern.
Returns (match.index, one past the match end, captured tag name,
lowercased as the 'i' flag makes case irrelevant downstream). -/
def execSelectorPattern (pat : SelPattern) (html : String) :
    Option (Nat × Nat × String) :=
  let h := lowerChars html.data
  let matchAt : Nat → Option (Nat × Chars) := fun p =>
    match pat with
    | .idPat id => idOpenMatchAt h (lowerChars id.data) p
    | .classPat cls => classOpenMatchAt h (lowerChars cls.data) p
    | .tagPat t => tagOpenMatchAt h (lowerChars t.data) p
    | .tagClassPat t cls =>
      tagClassOpenMatchAt h (lowerChars t.data) (lowerChars cls.data) p
  (List.range h.length).findSome?
    (fun p => (matchAt p).map (fun r => (p, r.1, String.mk r.2)))

/-- One occurrence of the open pattern `<TAG[\s>/]` of findClosingTag. -/
def openTagOccAt (h tag : Chars) (q : Nat) : Bool :=
  litAt h ('<' :: tag) q &&
  charAtIs h (q + 1 + tag.length) (fun c => jsWs c || c = '>' || c = '/')

/-- One occurrence of the close pattern `</TAG>` of findClosingTag. -/
def closeTagOccAt (h tag : Chars) (q : Nat) : Bool :=
  litAt h ('<' :: ('/' :: (tag ++ ['>']))) q

/-- The depth walk of findClosingTag over candidate positions in
ascending order: +1 at opens, −1 at closes, stop at the first close
that brings the depth to zero. -/
def fctGo (h tag : Chars) (s : Nat) : Int → List Nat → Option Nat
  | _, [] => none
  | depth, q :: qs =>
    if s ≤ q && openTagOccAt h tag q then fctGo h tag s (depth + 1) qs
    else if s ≤ q && closeTagOccAt h tag q then
      (if depth - 1 = 0 then some q else fctGo h tag s (depth - 1) qs)
    else fctGo h tag s depth qs

/-- mergeHTML.js `findClosingTag(html, tagName, startIndex)`: the
nesting-aware closing tag finder (null tagName is rediscovered from the
first `<\w+` at or after startIndex; -1 is modelled as none). -/
def findClosingTag (html : String) (tagName : Option String)
    (startIndex : Nat) : Option Nat :=
  let h := lowerChars html.data
  let tag? : Option Chars :=
    match tagName with
    | some t => some (lowerChars t.data)
    | none =>
      match firstIdxFrom h.length startIndex
          (fun p => charAtIs h p (fun c => c = '<') && charAtIs h (p + 1) wordChar) with
      | some p => some (wordRunFrom h (p + 1))
      | none => none
  match tag? with
  | none => none
  | some tag => fctGo h tag startIndex 0 (List.range h.length)

/-- mergeHTML.js `mergeHTMLFragment(fullHTML, fragmentHTML, selector, mode)`. -/
def mergeHTMLFragment (fullHTML fragmentHTML selector mode : String) : String :=
  if fullHTML.data.isEmpty || fragmentHTML.data.isEmpty || selector.data.isEmpty then
    (if !fragmentHTML.data.isEmpty then fragmentHTML else fullHTML)
  else
    match buildSelectorPattern selector with
    | none => fragmentHTML
    | some pat =>
      match execSelectorPattern pat fullHTML with
      | none => fullHTML ++ "\n" ++ fragmentHTML
      | some (_s, e, _tag) =>
        match findClosingTag fullHTML (tagNameOfPat pat) _s with
        | none => fullHTML ++ "\n" ++ fragmentHTML
        | some c =>
          let d := fullHTML.data
          if mode = "replace" then
            String.mk (d.take e ++ ('\n' :: fragmentHTML.data) ++ ('\n' :: d.drop c))
          else if mode = "append" then
            String.mk (d.take c ++ ('\n' :: fragmentHTML.data) ++ d.drop c)
          else if mode = "wrap" then
            -- `</${tagName}>`.length: for a null tagName JS interpolates
            -- the string "null", so the length is 7
            let closeLen := match tagNameOfPat pat with
              | some t => t.length + 3
              | none => 7
            String.mk (d.take _s ++ fragmentHTML.data ++ d.drop (c + closeLen))
          else fullHTML


/-!  ### mergeHTML.js — CSS rule extraction and the CSS upsert merge  -/

structure CSSRule where
  selector : String
  body : String
  full : String
deriving DecidableEq, Repr

def braceCh (c : Char) : Bool := c = '\x7b' || c = '\x7d'

/-- Match of `([^{}]+?)\s*\{([^{}]*)\}` starting at `p`: a non-empty
brace-free run, the opening brace, a brace-free body, the closing brace.
Returns (index of the opening brace, index of the closing brace). -/
def ruleMatchAt (l : Chars) (p : Nat) : Option (Nat × Nat) :=
  if charAtIs l p (fun c => !braceCh c) then
    let b := p + ((l.drop p).takeWhile (fun c => !braceCh c)).length
    if charAtIs l b (fun c => c = '\x7b') then
      let e := (b + 1) + ((l.drop (b + 1)).takeWhile (fun c => !braceCh c)).length
      if charAtIs l e (fun c => c = '\x7d') then some (b, e) else none
    else none
  else none

/-- The global exec loop of extractCSSRules: leftmost match from the
current scan position, then continue after it. -/
def extractCSSRulesGo (l : Chars) : Nat → Nat → List CSSRule
  | 0, _ => []
  | fuel + 1, i =>
    match firstIdxFrom l.length i (fun p => (ruleMatchAt l p).isSome) with
    | none => []
    | some p =>
      match ruleMatchAt l p with
      | some (b, e) =>
        { selector := String.mk (jsTrimChars (sliceChars l p b)),
          body := String.mk (jsTrimChars (sliceChars l (b + 1) e)),
          full := String.mk (jsTrimChars (sliceChars l p (e + 1))) }
        :: extractCSSRulesGo l fuel (e + 1)
      | none => []

/-- mergeHTML.js `extractCSSRules(css)`. -/
def extractCSSRules (css : String) : List CSSRule :=
  extractCSSRulesGo css.data (css.data.length + 1) 0

/-- End of the `SEL\s*` part of the rule regex: the index after the
selector literal and the following whitespace run. -/
def cssWsEnd (l sel : Chars) (p : Nat) : Nat :=
  p + sel.length + ((l.drop (p + sel.length)).takeWhile jsWs).length

/-- End of the `[^}]*` body run that follows the opening brace. -/
def cssBodyEnd (l sel : Chars) (p : Nat) : Nat :=
  (cssWsEnd l sel p + 1) +
    ((l.drop (cssWsEnd l sel p + 1)).takeWhile (fun c => c ≠ '\x7d')).length

/-- Match of the rule regex `SEL\s*\{[^}]*\}` (the selector text escaped,
hence literal) starting at `p`; returns the index one past the match. -/
def cssRuleOccAt (l sel : Chars) (p : Nat) : Option Nat :=
  if litAt l sel p then
    if charAtIs l (cssWsEnd l sel p) (fun c => c = '\x7b') then
      if charAtIs l (cssBodyEnd l sel p) (fun c => c = '\x7d') then
        some (cssBodyEnd l sel p + 1)
      else none
    else none
  else none

/-- `existingRuleRegex.test(css)`: the rule pattern occurs somewhere. -/
def cssRuleTest (css sel : String) : Bool :=
  (List.range css.data.length).any
    (fun p => (cssRuleOccAt css.data sel.data p).isSome)

/-- `existsRegex` of the append phase: `SEL\s*\{` occurs somewhere. -/
def cssSelOpenTest (css sel : String) : Bool :=
  (List.range css.data.length).any (fun p =>
    litAt css.data sel.data p &&
    charAtIs css.data (cssWsEnd css.data sel.data p) (fun c => c = '\x7b'))

/-- JS replacement-template expansion for a regex with no capture
groups: $$, $&, the backtick form (text before the match) and the
quote form (text after the match); anything else stays literal. -/
def jsReplTemplate (matched before after : Chars) : Chars → Chars
  | [] => []
  | ['$'] => ['$']
  | '$' :: c :: rest =>
    if c = '$' then '$' :: jsReplTemplate matched before after rest
    else if c = '&' then matched ++ jsReplTemplate matched before after rest
    else if c = Char.ofNat 96 then before ++ jsReplTemplate matched before after rest
    else if c = '\x27' then after ++ jsReplTemplate matched before after rest
    else '$' :: c :: jsReplTemplate matched before after rest
  | c :: rest => c :: jsReplTemplate matched before after rest

/-- `css.replace(existingRuleRegex, rule.full)` with the global flag:
replace every occurrence, left to right. -/
def cssReplaceAllGo (l sel repl : Chars) : Nat → Nat → Chars
  | 0, i => l.drop i
  | fuel + 1, i =>
    match firstIdxFrom l.length i (fun p => (cssRuleOccAt l sel p).isSome) with
    | none => l.drop i
    | some p =>
      match cssRuleOccAt l sel p with
      | some e =>
        sliceChars l i p ++ jsReplTemplate (sliceChars l p e) (l.take p) (l.drop e) repl
          ++ cssReplaceAllGo l sel repl fuel e
      | none => l.drop i

def cssReplaceAll (css sel repl : String) : String :=
  String.mk (cssReplaceAllGo css.data sel.data repl.data (css.data.length + 1) 0)

/-- mergeHTML.js `mergeCSSFragment(fullCSS, fragmentCSS, selector)`.
The selector parameter is only used by the source to build a regex that
is never applied, so it does not influence the result.  -/
def mergeCSSFragment (fullCSS fragmentCSS selector : String) : String :=
  let _ := selector
  if fullCSS.data.isEmpty && fragmentCSS.data.isEmpty then ""
  else if fullCSS.data.isEmpty then fragmentCSS
  else if fragmentCSS.data.isEmpty then fullCSS
  else
    let fragmentRules := extractCSSRules fragmentCSS
    if fragmentRules.isEmpty then fullCSS ++ "\n\n" ++ fragmentCSS
    else
      let step := fun (st : String × Bool) (rule : CSSRule) =>
        if cssRuleTest st.1 rule.selector then
          (cssReplaceAll st.1 rule.selector rule.full, true)
        else st
      let res := fragmentRules.foldl step (fullCSS, false)
      if !res.2 then jsTrim res.1 ++ "\n\n" ++ jsTrim fragmentCSS
      else
        fragmentRules.foldl (fun acc rule =>
          if !cssSelOpenTest fullCSS rule.selector then
            jsTrim acc ++ "\n\n" ++ rule.full
          else acc) res.1


/-!  ### contextService.js — target resolution strategies

resolveContext tries, in order: explicit selection, direct selector,
visual synonyms, text search, action fallback, absolute fallback.  The
source assigns `finalStrategy = 'full'` inside the selection branch
(line 326) although `finalStrategy` is only declared by `let` at line
364; in JavaScript this assignment is inside the temporal dead zone of
the binding, so resolveContext throws a ReferenceError whenever the
selection strategy fires.  We model this with Except. -/

structure ResolvedSel where
  selector : String
  matchedTag : String
deriving DecidableEq, Repr

/-- Test of `id=["']ID["']` (case-insensitive, contextService.js line 424;
note: unlike mergeHTML.js this pattern has no word boundary). -/
def idAttrOccAt (h id : Chars) (p : Nat) : Bool :=
  litAt h ("id=".data) p && charAtIs h (p + 3) quoteCh &&
  litAt h id (p + 4) && charAtIs h (p + 4 + id.length) quoteCh

def idAttrTest (html id : String) : Bool :=
  let h := lowerChars html.data
  (List.range h.length).any (fun p => idAttrOccAt h (lowerChars id.data) p)

/-- Test of `class=["'][^"']*\bCLS\b` (contextService.js line 430). -/
def classAttrOccAt (h cls : Chars) (p : Nat) : Bool :=
  litAt h ("class=".data) p && charAtIs h (p + 6) quoteCh &&
  (List.range (h.length + 1)).any (fun u =>
    p + 7 ≤ u && (sliceChars h (p + 7) u).all (fun c => !quoteCh c) &&
    wordTokenAt h cls u)

def classAttrTest (html cls : String) : Bool :=
  let h := lowerChars html.data
  (List.range h.length).any (fun p => classAttrOccAt h (lowerChars cls.data) p)

/-- Test of `<TAG[\s>]` (contextService.js lines 439/477/528). -/
def tagOpenSimpleTest (html tag : String) : Bool :=
  let h := lowerChars html.data
  let t := lowerChars tag.data
  (List.range h.length).any (fun p =>
    litAt h ('<' :: t) p &&
    charAtIs h (p + 1 + t.length) (fun c => jsWs c || c = '>'))

/-- Exec of the prefix pattern `<(\w+)[^>]*\bid=["']ID["']`; returns the
captured tag name (extractTagForSelector). -/
def extractTagPrefixId (html id : String) : Option String :=
  let h := lowerChars html.data
  let idl := lowerChars id.data
  let matchAt := fun p =>
    charAtIs h p (fun c => c = '<') &&
    !(wordRunFrom h (p + 1)).isEmpty &&
    (let tagEnd := p + 1 + (wordRunFrom h (p + 1)).length
     (List.range (h.length + 1)).any (fun t =>
       tagEnd ≤ t && (sliceChars h tagEnd t).all (fun c => c ≠ '>') &&
       bLitAt h ("id=".data) t && charAtIs h (t + 3) quoteCh &&
       litAt h idl (t + 4) && charAtIs h (t + 4 + idl.length) quoteCh))
  match (List.range h.length).find? matchAt with
  | some p => some (String.mk (wordRunFrom h (p + 1)))
  | none => none

/-- Exec of the prefix pattern `<(\w+)[^>]*\bclass=["'][^"']*\bCLS\b`. -/
def extractTagPrefixClass (html cls : String) : Option String :=
  let h := lowerChars html.data
  let cl := lowerChars cls.data
  let matchAt := fun p =>
    charAtIs h p (fun c => c = '<') &&
    !(wordRunFrom h (p + 1)).isEmpty &&
    (let tagEnd := p + 1 + (wordRunFrom h (p + 1)).length
     (List.range (h.length + 1)).any (fun t =>
       tagEnd ≤ t && (sliceChars h tagEnd t).all (fun c => c ≠ '>') &&
       bLitAt h ("class=".data) t && charAtIs h (t + 6) quoteCh &&
       (List.range (h.length + 1)).any (fun u =>
         t + 7 ≤ u && (sliceChars h (t + 7) u).all (fun c => !quoteCh c) &&
         wordTokenAt h cl u)))
  match (List.range h.length).find? matchAt with
  | some p => some (String.mk (wordRunFrom h (p + 1)))
  | none => none

/-- contextService.js `extractTagForSelector(html, selector)`. -/
def extractTagForSelector (html selector : String) : String :=
  match selector.data with
  | '#' :: id => (extractTagPrefixId html (String.mk id)).getD "div"
  | '.' :: cls => (extractTagPrefixClass html (String.mk cls)).getD "div"
  | _ => toLowerStr selector

/-- contextService.js `tryDirectSelector(targetHint, html)`. -/
def tryDirectSelector (targetHint : Option String) (html : String) :
    Option ResolvedSel :=
  match targetHint with
  | none => none
  | some th =>
    let hint := jsTrim th
    let hd := hint.data
    let attempt : Option ResolvedSel :=
      match hd with
      | '#' :: id =>
        if idAttrTest html (String.mk id) then
          some ⟨hint, extractTagForSelector html hint⟩
        else none
      | '.' :: cls =>
        if classAttrTest html (String.mk cls) then
          some ⟨hint, extractTagForSelector html hint⟩
        else none
      | _ => none
    match attempt with
    | some r => some r
    | none =>
      -- /^[a-z][a-z0-9]*$/i test, then `<hint[\s>]`
      if (match hd with
          | c :: rest => c.isAlpha && rest.all (fun x => x.isAlpha || x.isDigit)
          | [] => false) &&
         tagOpenSimpleTest html hint then
        some ⟨toLowerStr hint, toLowerStr hint⟩
      else
        -- hyphenated multi-word: includes('-') and /^[a-z][a-z0-9-]+$/i
        if hd.contains '-' &&
           (match hd with
            | c :: rest =>
              c.isAlpha && !rest.isEmpty &&
              rest.all (fun x => x.isAlpha || x.isDigit || x = '-')
            | [] => false) then
          if classAttrTest html hint then
            some ⟨String.mk ('.' :: hd), extractTagForSelector html (String.mk ('.' :: hd))⟩
          else if idAttrTest html hint then
            some ⟨String.mk ('#' :: hd), extractTagForSelector html (String.mk ('#' :: hd))⟩
          else none
        else none

/-- Visual synonym table (contextService.js lines 245-280). -/
def VISUAL_SYNONYMS : List (String × List String) :=
  [("box", ["div", "section", "article"]),
   ("container", ["div.container", "main", ".wrapper"]),
   ("wrapper", ["div.wrapper", ".container", "main"]),
   ("theme", ["body", ":root", "html"]),
   ("page", ["body", "main", ".page"]),
   ("content", ["main", ".content", "article"]),
   ("navbar", ["nav", ".navbar", ".nav", "header nav"]),
   ("menu", ["nav", ".menu", "ul.nav"]),
   ("navigation", ["nav", ".navigation", "header"]),
   ("button", ["button", ".btn", "a.btn", "input[type=\"submit\"]"]),
   ("header", ["header", "h1", ".header"]),
   ("title", ["h1", "h2", ".title", ".heading"]),
   ("subtitle", ["h2", "h3", ".subtitle"]),
   ("heading", ["h1", "h2", "h3"]),
   ("paragraph", ["p", ".text"]),
   ("text", ["p", "span", ".text"]),
   ("link", ["a", ".link"]),
   ("image", ["img", "picture", ".image"]),
   ("card", [".card", "article", ".card-container"]),
   ("footer", ["footer", ".footer"]),
   ("hero", [".hero", ".hero-section", "section:first-of-type"]),
   ("sidebar", ["aside", ".sidebar", ".side-panel"]),
   ("form", ["form", ".form"]),
   ("input", ["input", "textarea", ".input-field"]),
   ("modal", [".modal", ".dialog", ".popup"]),
   ("banner", [".banner", ".hero", "header"]),
   ("icon", ["i", ".icon", "svg"]),
   ("list", ["ul", "ol", ".list"]),
   ("table", ["table", ".table"])]

/-- Action-based default targets (contextService.js lines 283-291). -/
def ACTION_DEFAULTS : List (String × List String) :=
  [("recolor", ["p", "h1", "h2", "h3", "span", "button", "a"]),
   ("change_color", ["p", "h1", "h2", "h3", "span", "button", "a"]),
   ("resize", ["div", "section", "img", ".container"]),
   ("add_element", ["main", "body", ".container"]),
   ("modify_layout", ["body", "main", ".container"]),
   ("add_animation", ["button", ".card", "a", "img"]),
   ("fix_bug", ["body"])]

/-- Walk a candidate selector list: class names are tested with the
class-attribute pattern, everything else with `<sel[\s>]` (shared by
tryVisualSynonyms and tryActionFallback, whose loops are identical). -/
def trySelectorList (html : String) : List String → Option ResolvedSel
  | [] => none
  | syn :: rest =>
    match syn.data with
    | '.' :: cls =>
      if classAttrTest html (String.mk cls) then
        some ⟨syn, extractTagForSelector html syn⟩
      else trySelectorList html rest
    | _ =>
      if tagOpenSimpleTest html syn then some ⟨syn, syn⟩
      else trySelectorList html rest

/-- contextService.js `tryVisualSynonyms(targetHint, html)`. -/
def tryVisualSynonyms (targetHint : Option String) (html : String) :
    Option ResolvedSel :=
  match targetHint with
  | none => none
  | some th =>
    match (VISUAL_SYNONYMS.find? (fun e => e.1 = toLowerStr (jsTrim th))).map (fun e => e.2) with
    | none => none
    | some syns => trySelectorList html syns

/-- Match of `<(\w+)[^>]*>[^<]*HINT[^<]*</\1>` at position `p` (the
text-search pattern); returns (one past the end, captured tag). -/
def textSearchMatchAt (h hint : Chars) (p : Nat) : Option (Nat × Chars) :=
  if charAtIs h p (fun c => c = '<') then
    let run := wordRunFrom h (p + 1)
    if run.isEmpty then none
    else
      match firstGtFrom h (p + 1 + run.length) with
      | none => none
      | some gt =>
        (List.range run.length).findSome? (fun i =>
          let tag := run.take (run.length - i)
          (List.range (h.length + 1)).reverse.findSome? (fun j =>
            if gt + 1 ≤ j && (sliceChars h (gt + 1) j).all (fun c => c ≠ '<') &&
               litAt h hint j then
              let w := j + hint.length
              let m := w + ((h.drop w).takeWhile (fun c => c ≠ '<')).length
              if litAt h ('<' :: ('/' :: (tag ++ ['>']))) m then
                some (m + tag.length + 3, tag)
              else none
            else none))
  else none

/-- First capture of `ATTR["']([^"']+)["']` in `l` (case-sensitive). -/
def captureAttr (l attr : Chars) : Option Chars :=
  (List.range l.length).findSome? (fun p =>
    if litAt l attr p && charAtIs l (p + attr.length) quoteCh then
      let v := p + attr.length + 1
      let val := (l.drop v).takeWhile (fun c => !quoteCh c)
      if !val.isEmpty && charAtIs l (v + val.length) quoteCh then some val
      else none
    else none)

/-- Head of a JS `split(/\s+/)`: empty when the text starts with
whitespace, else the first whitespace-free run. -/
def jsSplitWsHead (l : Chars) : Chars :=
  if charAtIs l 0 jsWs then [] else l.takeWhile (fun c => !jsWs c)

/-- contextService.js `tryTextSearch(targetHint, html)`. -/
def tryTextSearch (targetHint : Option String) (html : String) :
    Option ResolvedSel :=
  match targetHint with
  | none => none
  | some th =>
    let hint := jsTrim th
    let h := lowerChars html.data
    match (List.range h.length).findSome?
        (fun p => (textSearchMatchAt h (lowerChars hint.data) p).map (fun r => (p, r))) with
    | none => none
    | some (p, e, tag) =>
      let elementHTML := sliceChars html.data p e
      let tagl := String.mk tag
      match captureAttr elementHTML ("id=".data) with
      | some idv => some ⟨String.mk ('#' :: idv), tagl⟩
      | none =>
        match captureAttr elementHTML ("class=".data) with
        | some clsv => some ⟨String.mk ('.' :: jsSplitWsHead clsv), tagl⟩
        | none => some ⟨tagl, tagl⟩

/-- contextService.js `tryActionFallback(action, html)`. -/
def tryActionFallback (action : Option String) (html : String) :
    Option ResolvedSel :=
  match action with
  | none => none
  | some a =>
    match (ACTION_DEFAULTS.find? (fun e => e.1 = toLowerStr a)).map (fun e => e.2) with
    | none => none
    | some defaults => trySelectorList html defaults

/-- First match of `/\[.*?\]/s`: from the first bracket to the next
closing bracket after it. -/
def bracketSlice (l : Chars) : Option Chars :=
  match firstIdxFrom l.length 0 (fun p => charAtIs l p (fun c => c = '[')) with
  | none => none
  | some a =>
    match firstIdxFrom l.length (a + 1) (fun q => charAtIs l q (fun c => c = ']')) with
    | none => none
    | some b => some (sliceChars l a (b + 1))

/-- contextService.js `trySelectionStrategy(selectionContext, html)`:
fires exactly when the bracket slice of the selection context parses as
a non-empty JSON array; it then widens the target to the whole body.
(The html parameter is unused in the source as well.) -/
def trySelectionStrategy (selectionContext : Option String) (html : String) :
    Option ResolvedSel :=
  let _ := html
  match selectionContext with
  | none => none
  | some sc =>
    match bracketSlice sc.data with
    | none => none
    | some jm =>
      match jsonParse (String.mk jm) with
      | some (.arr elems) => if elems.isEmpty then none else some ⟨"body", "body"⟩
      | some _ => none
      | none => none

/-- Match at `p` of `<(\w+)[^>]*\bid=["']ID["'][^>]*>[\s\S]*?</\1>`
(extractSurroundingHTML, id case); returns one past the end. -/
def surroundIdMatchAt (h id : Chars) (p : Nat) : Option Nat :=
  if charAtIs h p (fun c => c = '<') then
    let run := wordRunFrom h (p + 1)
    if run.isEmpty then none
    else
      match idTailMatch h id (p + 1 + run.length) with
      | none => none
      | some oe =>
        (List.range run.length).findSome? (fun i =>
          let tag := run.take (run.length - i)
          (firstIdxFrom h.length oe
              (fun m => litAt h ('<' :: ('/' :: (tag ++ ['>']))) m)).map
            (fun m => m + tag.length + 3))
  else none

/-- Match at `p` of the class form of the surrounding-HTML pattern. -/
def surroundClassMatchAt (h cls : Chars) (p : Nat) : Option Nat :=
  if charAtIs h p (fun c => c = '<') then
    let run := wordRunFrom h (p + 1)
    if run.isEmpty then none
    else
      match classTailMatch h cls (p + 1 + run.length) with
      | none => none
      | some oe =>
        (List.range run.length).findSome? (fun i =>
          let tag := run.take (run.length - i)
          (firstIdxFrom h.length oe
              (fun m => litAt h ('<' :: ('/' :: (tag ++ ['>']))) m)).map
            (fun m => m + tag.length + 3))
  else none

/-- Match at `p` of `<(TAG)[^>]*>[\s\S]*?</\1>` (tag selector case). -/
def surroundTagMatchAt (h tag : Chars) (p : Nat) : Option Nat :=
  if litAt h ('<' :: tag) p then
    match firstGtFrom h (p + 1 + tag.length) with
    | none => none
    | some g =>
      (firstIdxFrom h.length (g + 1)
          (fun m => litAt h ('<' :: ('/' :: (tag ++ ['>']))) m)).map
        (fun m => m + tag.length + 3)
  else none

/-- contextService.js `extractSurroundingHTML(html, selector)`: the
matched element up to the first textual close of its tag, or the whole
document when the pattern finds nothing. -/
def extractSurroundingHTML (html selector : String) : String :=
  if html.data.isEmpty || selector.data.isEmpty then html
  else
    let h := lowerChars html.data
    let matchAt : Nat → Option Nat :=
      match selector.data with
      | '#' :: id => surroundIdMatchAt h (lowerChars id)
      | '.' :: cls => surroundClassMatchAt h (lowerChars cls)
      | _ => surroundTagMatchAt h (lowerChars selector.data)
    match (List.range h.length).findSome? (fun p => (matchAt p).map (fun e => (p, e))) with
    | some (p, e) => String.mk (sliceChars html.data p e)
    | none => html

/-- Inner part `[^{]*\{[^}]*\}` of the surrounding-CSS rule pattern,
entered right after the selector literal ends at `t + |sel|`. -/
def cssAroundInner (h sel : Chars) (t : Nat) : Option Nat :=
  match firstIdxFrom h.length (t + sel.length) (fun u => charAtIs h u (fun c => c = '\x7b')) with
  | none => none
  | some u =>
    match firstIdxFrom h.length (u + 1) (fun e => charAtIs h e (fun c => c = '\x7d')) with
    | none => none
    | some e => some (e + 1)

/-- Match at `p` of `[^{}]*SEL[^{]*\{[^}]*\}` (greedy leading run). -/
def cssAroundMatchAt (h sel : Chars) (p : Nat) : Option Nat :=
  let okT := fun t =>
    p ≤ t && (sliceChars h p t).all (fun c => !braceCh c) &&
    litAt h sel t && (cssAroundInner h sel t).isSome
  match lastIdxFrom (h.length + 1) p okT with
  | none => none
  | some t => cssAroundInner h sel t

/-- Global collection loop of the surrounding-CSS matches; rule texts
are cut from the original (non-lowercased) css and trimmed. -/
def cssAroundCollect (h sel orig : Chars) : Nat → Nat → List Chars
  | 0, _ => []
  | fuel + 1, i =>
    match firstIdxFrom h.length i (fun p => (cssAroundMatchAt h sel p).isSome) with
    | none => []
    | some p =>
      match cssAroundMatchAt h sel p with
      | some e => jsTrimChars (sliceChars orig p e) :: cssAroundCollect h sel orig fuel e
      | none => []

/-- Join with a separator (JS Array.prototype.join). -/
def joinSep (sep : Chars) : List Chars → Chars
  | [] => []
  | [x] => x
  | x :: y :: rest => x ++ sep ++ joinSep sep (y :: rest)

/-- contextService.js `extractSurroundingCSS(css, selector, matchedTag)`. -/
def extractSurroundingCSS (css selector matchedTag : String) : String :=
  if css.data.isEmpty then ""
  else
    let sels := ([selector, matchedTag]).filter (fun s => !s.data.isEmpty)
    let rules := sels.foldl (fun acc sel =>
      acc ++ cssAroundCollect (lowerChars css.data) (lowerChars sel.data)
              css.data (css.data.length + 1) 0) []
    if rules.isEmpty then css
    else String.mk (joinSep ("\n\n".data) rules)

/-!  ### The data model and resolveContext itself  -/

structure Intent where
  action : Option String
  targetHint : Option String
  scope : String
  property : Option String
  value : Option String
  strategy : String
  hasSelection : Bool
  selectionContext : Option String
  normalizedMessage : Option String
  hasImage : Bool
deriving DecidableEq, Repr

structure DocumentState where
  html : String
  css : String
  javascript : String
deriving DecidableEq, Repr

structure ResolvedContext where
  selector : String
  matchedTag : String
  surroundingHTML : String
  surroundingCSS : String
  strategy : String
  resolvedBy : String
deriving DecidableEq, Repr

/-- The only JS exception resolveContext can raise: the temporal-dead-zone
access of `finalStrategy` in the selection branch. -/
inductive JSError where
  | referenceError
deriving DecidableEq, Repr

/-- Layout-sensitive action words (contextService.js lines 294-298). -/
def LAYOUT_SENSITIVE_ACTIONS : List String :=
  ["align", "resize", "rearrange", "reorder", "move", "position",
   "grid", "flex", "layout", "responsive", "stack", "distribute",
   "modify_layout", "center"]

def optIncludes (o : Option String) (a : String) : Bool :=
  match o with
  | some s => containsStr (toLowerStr s) a
  | none => false

/-- `LAYOUT_SENSITIVE_ACTIONS.some(a => action?.includes(a) ||
normalizedMessage?.includes(a))` of the elevation rule. -/
def layoutSensitiveHit (intent : Intent) : Bool :=
  LAYOUT_SENSITIVE_ACTIONS.any (fun a =>
    optIncludes intent.action a || optIncludes intent.normalizedMessage a)

/-- contextService.js `resolveContext(intent, currentCode)`.

When the selection strategy fires, the source immediately executes
`finalStrategy = 'full'` (line 326) — an assignment inside the temporal
dead zone of the `let finalStrategy` on line 364 — so the JS function
throws a ReferenceError instead of returning; this is the `.error`
branch.  Otherwise the strategies are tried in order, the simple→medium
elevation runs, and the surrounding context is extracted. -/
def resolveContext (intent : Intent) (currentCode : DocumentState) :
    Except JSError ResolvedContext :=
  let html := currentCode.html
  let css := currentCode.css
  if intent.hasSelection && (trySelectionStrategy intent.selectionContext html).isSome then
    .error .referenceError
  else
    let rStep : Option (ResolvedSel × String) :=
      match tryDirectSelector intent.targetHint html with
      | some r => some (r, "direct")
      | none =>
        match tryVisualSynonyms intent.targetHint html with
        | some r => some (r, "synonym")
        | none =>
          match tryTextSearch intent.targetHint html with
          | some r => some (r, "text-search")
          | none =>
            match tryActionFallback intent.action html with
            | some r => some (r, "action-fallback")
            | none => none
    let pair := rStep.getD (⟨"body", "body"⟩, "absolute-fallback")
    let resolved := pair.1
    let finalStrategy :=
      if intent.strategy = "simple" && layoutSensitiveHit intent then "medium"
      else intent.strategy
    .ok { selector := resolved.selector, matchedTag := resolved.matchedTag,
          surroundingHTML := extractSurroundingHTML html resolved.selector,
          surroundingCSS := extractSurroundingCSS css resolved.selector resolved.matchedTag,
          strategy := finalStrategy, resolvedBy := pair.2 }

/-!  ### mutationService.js — the tolerant response parser and the
fragment mutation core  -/

/-- First match of the fence regex: the opening fence with an optional
json tag, up to the first closing fence.  Returns (body start, index of
the closing fence). -/
def fenceMatchFrom (l : Chars) (p : Nat) : Option (Nat × Nat) :=
  if litAt l ("```".data) p then
    let q := if litAt l ("json".data) (p + 3) then p + 7 else p + 3
    match firstIdxFrom l.length q (fun f => litAt l ("```".data) f) with
    | some f => some (q, f)
    | none => none
  else none

/-- mutationService.js parseJSON, cleaning phase: trim, strip the first
markdown code fence, and cut to the outer braces when the text does not
already start with one. -/
def cleanForJson (text : String) : Chars :=
  let t := jsTrimChars text.data
  let cleaned :=
    match (List.range t.length).findSome? (fun p => fenceMatchFrom t p) with
    | some (q, f) => jsTrimChars (sliceChars t q f)
    | none => t
  if charAtIs cleaned 0 (fun c => c = '\x7b') then cleaned
  else
    match firstIdxFrom cleaned.length 0 (fun i => charAtIs cleaned i (fun c => c = '\x7b')),
          lastIdxFrom cleaned.length 0 (fun i => charAtIs cleaned i (fun c => c = '\x7d')) with
    | some fb, some lb => if fb < lb then sliceChars cleaned fb (lb + 1) else cleaned
    | _, _ => cleaned

/-- Replace every occurrence of a literal pattern (String.replace with a
global regex of an escaped literal). -/
def listReplaceAllGo (pat repl : Chars) : Nat → Chars → Chars
  | 0, l => l
  | _, [] => []
  | fuel + 1, c :: rest =>
    if !pat.isEmpty && pat.isPrefixOf (c :: rest) then
      repl ++ listReplaceAllGo pat repl fuel ((c :: rest).drop pat.length)
    else c :: listReplaceAllGo pat repl fuel rest

def listReplaceAll (l pat repl : Chars) : Chars :=
  listReplaceAllGo pat repl (l.length + 1) l

/-- The unescaping chain of extractField:
replace \n, then \" , then double backslash. -/
def unescapeField (l : Chars) : Chars :=
  listReplaceAll
    (listReplaceAll (listReplaceAll l ("\\n".data) ("\n".data))
      ("\\\"".data) ("\"".data))
    ("\\\\".data) ("\\".data)

/-- The lookahead `(?="\s*,|"\s*})` of the field-extraction regex. -/
def fieldLookaheadOk (l : Chars) (j : Nat) : Bool :=
  charAtIs l j (fun c => c = '"') &&
  (let k := (j + 1) + ((l.drop (j + 1)).takeWhile jsWs).length
   charAtIs l k (fun c => c = ',' || c = '\x7d'))

/-- mutationService.js `extractField(field)`: first match of
`"FIELD"\s*:\s*"([\s\S]*?)(?="\s*,|"\s*})`, unescaped. -/
def extractField (field : String) (l : Chars) : Option String :=
  let pat := ('"' :: field.data) ++ ['"']
  match (List.range l.length).findSome? (fun p =>
    if litAt l pat p then
      let a := p + pat.length
      let b := a + ((l.drop a).takeWhile jsWs).length
      if charAtIs l b (fun c => c = ':') then
        let c2 := (b + 1) + ((l.drop (b + 1)).takeWhile jsWs).length
        if charAtIs l c2 (fun c => c = '"') then
          (firstIdxFrom (l.length + 1) (c2 + 1) (fun j => fieldLookaheadOk l j)).map
            (fun j => sliceChars l (c2 + 1) j)
        else none
      else none
    else none) with
  | some cap => some (String.mk (unescapeField cap))
  | none => none

def jstr : Option String → JsonVal
  | some s => .str s
  | none => .null

/-- mutationService.js `parseJSON(text)`: clean, strict JSON.parse, and
on failure the field-by-field regex fallback.  The fallback returns an
object only when one of htmlFragment, cssFragment, html or css was
recovered truthy (note: a recovered javascript or jsFragment field alone
does not count); otherwise it returns null (none). -/
def mutParseJSON (text : String) : Option JsonVal :=
  let cleaned := cleanForJson text
  match jsonParse (String.mk cleaned) with
  | some v => some v
  | none =>
    let ef := fun (f : String) => extractField f cleaned
    let jv : Option String :=
      if truthyO (ef "javascript") then ef "javascript" else ef "js"
    let mm : String :=
      if truthyO (ef "mergeMode") then (ef "mergeMode").getD "replace" else "replace"
    if truthyO (ef "htmlFragment") || truthyO (ef "cssFragment") ||
       truthyO (ef "html") || truthyO (ef "css") then
      some (.obj
        [("message", jstr (ef "message")),
         ("htmlFragment", jstr (ef "htmlFragment")),
         ("cssFragment", jstr (ef "cssFragment")),
         ("jsFragment", jstr (ef "jsFragment")),
         ("html", jstr (ef "html")),
         ("css", jstr (ef "css")),
         ("javascript", jstr jv),
         ("mergeMode", .str mm)])
    else none

structure MutationResult where
  html : Option String
  css : Option String
  javascript : Option String
  message : String
  mutationType : String
deriving DecidableEq, Repr

/-- The merged html text computed by executeFragmentMutation
(mutationService.js lines 237-244). -/
def fragmentMergedHTML (parsed : JsonVal) (currentCode : DocumentState)
    (selector : String) : String :=
  match getStrField parsed "htmlFragment" with
  | some f =>
    if f.data.isEmpty then currentCode.html
    else
      mergeHTMLFragment currentCode.html f selector
        (if truthyO (getStrField parsed "mergeMode") then
           (getStrField parsed "mergeMode").getD "replace"
         else "replace")
  | none => currentCode.html

/-- The merged css text (mutationService.js lines 246-252). -/
def fragmentMergedCSS (parsed : JsonVal) (currentCode : DocumentState)
    (selector : String) : String :=
  match getStrField parsed "cssFragment" with
  | some f =>
    if f.data.isEmpty then currentCode.css
    else mergeCSSFragment currentCode.css f selector
  | none => currentCode.css

/-- The merged js text: JS fragments are appended, never replaced
(mutationService.js lines 254-259). -/
def fragmentMergedJS (parsed : JsonVal) (currentCode : DocumentState) : String :=
  match getStrField parsed "jsFragment" with
  | some f =>
    if f.data.isEmpty then currentCode.javascript
    else if !currentCode.javascript.data.isEmpty then
      currentCode.javascript ++ "\n\n" ++ f
    else f
  | none => currentCode.javascript

/-- The MutationResult assembled by executeFragmentMutation from the
parsed response (mutationService.js lines 261-268): each code field is
null exactly when its merged text is string-equal (JS !==) to the
pre-mutation text. -/
def fragmentResultOf (parsed : JsonVal) (context : ResolvedContext)
    (currentCode : DocumentState) : MutationResult :=
  let mergedHTML := fragmentMergedHTML parsed currentCode context.selector
  let mergedCSS := fragmentMergedCSS parsed currentCode context.selector
  let mergedJS := fragmentMergedJS parsed currentCode
  { html := if mergedHTML ≠ currentCode.html then some mergedHTML else none,
    css := if mergedCSS ≠ currentCode.css then some mergedCSS else none,
    javascript := if mergedJS ≠ currentCode.javascript then some mergedJS else none,
    message := if truthyO (getStrField parsed "message") then
                 (getStrField parsed "message").getD ""
               else "Applied surgical edit.",
    mutationType := "fragment" }

/-- mutationService.js executeFragmentMutation, from the raw LLM
response text onwards: parse, throw when nothing usable came back,
surgically merge, and null out every field whose merged text equals the
pre-mutation text. -/
def executeFragmentMutationCore (responseText : String)
    (context : ResolvedContext) (currentCode : DocumentState) :
    Except String MutationResult :=
  match mutParseJSON responseText with
  | none => .error "Failed to parse fragment response as JSON"
  | some parsed =>
    if !jsTruthy parsed then .error "Failed to parse fragment response as JSON"
    else .ok (fragmentResultOf parsed context currentCode)

/-!  ### validationService.js — syntax checks, semantic check, feedback  -/

/-- The void-element set of checkHTMLSyntax. -/
def VOID_TAGS : List String :=
  ["br", "hr", "img", "input", "meta", "link", "area", "base", "col",
   "embed", "source", "track", "wbr"]

/-- One match of the tag scanner `<\/?(\w+)[^>]*\/?>` starting at `p`:
returns (one past the end, is a close tag, ends in a slash, tag name). -/
def tagTokenAt (l : Chars) (p : Nat) : Option (Nat × Bool × Bool × Chars) :=
  if charAtIs l p (fun c => c = '<') then
    let isClose := charAtIs l (p + 1) (fun c => c = '/')
    let q := if isClose then p + 2 else p + 1
    let run := wordRunFrom l q
    if run.isEmpty then none
    else
      match firstGtFrom l (q + run.length) with
      | some g => some (g + 1, isClose, charAtIs l (g - 1) (fun c => c = '/'), run)
      | none => none
  else none

/-- The global scan loop of checkHTMLSyntax, collecting the tag tokens
in document order. -/
def collectTagTokens (l : Chars) : Nat → Nat → List (Bool × Bool × Chars)
  | 0, _ => []
  | fuel + 1, i =>
    match firstIdxFrom l.length i (fun p => (tagTokenAt l p).isSome) with
    | none => []
    | some p =>
      match tagTokenAt l p with
      | some (e, cl, sc, run) => (cl, sc, lowerChars run) :: collectTagTokens l fuel e
      | none => []

/-- The open-tag stack walk of checkHTMLSyntax (head of the list is the
top of the stack; a mismatched close restores the popped entry). -/
def checkHTMLSyntaxGo :
    List (Bool × Bool × Chars) → List String → List String →
    (List String × List String)
  | [], stack, errs => (stack, errs)
  | (isClose, selfC, tag) :: rest, stack, errs =>
    let tagS := String.mk tag
    if VOID_TAGS.contains tagS || selfC then checkHTMLSyntaxGo rest stack errs
    else if isClose then
      match stack with
      | [] => checkHTMLSyntaxGo rest [] errs
      | top :: stk =>
        if top ≠ tagS then
          checkHTMLSyntaxGo rest (top :: stk)
            (errs ++ ["MISMATCHED_TAG: Expected closing tag for <" ++ top ++
                      ">, found </" ++ tagS ++ ">."])
        else checkHTMLSyntaxGo rest stk errs
    else checkHTMLSyntaxGo rest (tagS :: stack) errs

/-- validationService.js `checkHTMLSyntax(html)`. -/
def checkHTMLSyntax (html : String) : List String :=
  if html.data.isEmpty || (jsTrimChars html.data).isEmpty then
    ["EMPTY_HTML: HTML output is empty."]
  else
    let res := checkHTMLSyntaxGo (collectTagTokens html.data (html.data.length + 1) 0) [] []
    if res.1.length > 3 then
      res.2 ++ ["UNCLOSED_TAGS: " ++ toString res.1.length ++
                " unclosed tags detected: " ++
                String.mk (joinSep (", ".data) ((res.1.reverse.take 5).map String.data)) ++ "..."]
    else res.2

/-- validationService.js `checkCSSSyntax(css)`: brace balance. -/
def checkCSSSyntax (css : String) : List String :=
  if css.data.isEmpty || (jsTrimChars css.data).isEmpty then []
  else
    let opens := (css.data.filter (fun c => c = '\x7b')).length
    let closes := (css.data.filter (fun c => c = '\x7d')).length
    if opens ≠ closes then
      ["UNBALANCED_CSS: CSS has " ++ toString opens ++ " opening braces and " ++
       toString closes ++ " closing braces."]
    else []

/-- Test of `PROP\s*:` (case-insensitive) in the css. -/
def propColonTest (css prop : String) : Bool :=
  let h := lowerChars css.data
  let p := lowerChars prop.data
  (List.range h.length).any (fun i =>
    litAt h p i &&
    (let j := i + p.length + ((h.drop (i + p.length)).takeWhile jsWs).length
     charAtIs h j (fun c => c = ':')))

/-- Test of `PROP\s*:\s*[^;]*VALUE` (case-insensitive) in the css. -/
def propValueTest (css prop v : String) : Bool :=
  let h := lowerChars css.data
  let p := lowerChars prop.data
  let vv := lowerChars v.data
  (List.range h.length).any (fun i =>
    litAt h p i &&
    (let j := i + p.length + ((h.drop (i + p.length)).takeWhile jsWs).length
     charAtIs h j (fun c => c = ':') &&
     (List.range (h.length + 1)).any (fun k =>
       j + 1 ≤ k && (sliceChars h (j + 1) k).all (fun c => c ≠ ';') &&
       litAt h vv k)))

/-- JS falsy-chain `a || b` on optional strings. -/
def optOr (a b : Option String) : Option String := if truthyO a then a else b

/-- `mutated || original || ''` on a maybe-changed field. -/
def fieldOr (mutated : Option String) (original : String) : String :=
  match mutated with
  | some s => if s.data.isEmpty then (if original.data.isEmpty then "" else original) else s
  | none => if original.data.isEmpty then "" else original

/-- validationService.js `checkPropertyApplied(intent, originalCode,
mutatedCode)`. -/
def checkPropertyApplied (intent : Intent) (originalCode : DocumentState)
    (mutatedCode : MutationResult) : Bool :=
  match intent.property with
  | none => true
  | some p0 =>
    if p0.data.isEmpty then true
    else
      let property := toLowerStr p0
      let value : Option String := intent.value.map toLowerStr
      let css := fieldOr mutatedCode.css originalCode.css
      if propColonTest css property then
        (if truthyO value then propValueTest css property (value.getD "") else true)
      else
        let html := fieldOr mutatedCode.html originalCode.html
        containsStr html property ||
        (truthyO value && containsStr html (value.getD ""))

/-- `l` ends with `pat`. -/
def endsWithL (l pat : Chars) : Bool :=
  pat.length ≤ l.length && litAt l pat (l.length - pat.length)

/-- Exec of the anchored pattern `<(\w+)[^>]*>$` on the trimmed html:
the captured tag of a final opening tag. -/
def lastTagOpenMatch (t : Chars) : Option Chars :=
  if charAtIs t (t.length - 1) (fun c => c = '>') && !t.isEmpty then
    (List.range t.length).findSome? (fun p =>
      if charAtIs t p (fun c => c = '<') then
        let run := wordRunFrom t (p + 1)
        if !run.isEmpty && p + 1 + run.length ≤ t.length - 1 &&
           (sliceChars t (p + 1 + run.length) (t.length - 1)).all (fun c => c ≠ '>') then
          some run
        else none
      else none)
  else none

/-- validationService.js `isTruncated(html)`. -/
def isTruncated (html : String) : Bool :=
  let t := jsTrimChars html.data
  if endsWithL t ("...".data) || endsWithL t ("…".data) then true
  else
    match lastTagOpenMatch t with
    | none => false
    | some run =>
      let tag := String.mk (lowerChars run)
      if (["br", "hr", "img", "input", "meta", "link"] : List String).contains tag then
        false
      else
        !lcontains (lowerChars html.data)
          ('<' :: ('/' :: (lowerChars run ++ ['>'])))

def numberErrors : Nat → List String → String
  | _, [] => ""
  | i, e :: rest => toString i ++ ". " ++ e ++ "\n" ++ numberErrors (i + 1) rest

/-- validationService.js `buildFeedbackPrompt(intent, errors, ...)`. -/
def buildFeedbackPrompt (intent : Intent) (errors : List String) : String :=
  "The previous code generation attempt had the following issues:\n\n" ++
  numberErrors 1 errors ++
  "\nOriginal user request: \"" ++
  (optOr intent.normalizedMessage intent.action).getD "undefined" ++ "\"" ++
  "\nTarget: " ++ (optOr intent.targetHint (some "unspecified")).getD "unspecified" ++
  (if truthyO intent.property then
     "\nExpected change: " ++ intent.property.getD "" ++
     (if truthyO intent.value then " to \"" ++ intent.value.getD "" ++ "\"" else "")
   else "") ++
  "\n\nPlease fix these issues and regenerate the code. Ensure the requested change is clearly visible in the output."

structure ValidationOutcome where
  valid : Bool
  errors : List String
  feedbackPrompt : Option String
deriving DecidableEq, Repr

/-- validationService.js `validateMutation(intent, originalCode,
mutatedCode)`.  The anti-pattern scan (checkAntiPatterns) only logs
console warnings and contributes nothing to the returned outcome, so it
is not modelled. -/
def validateMutation (intent : Intent) (originalCode : DocumentState)
    (mutatedCode : MutationResult) : ValidationOutcome :=
  let htmlChanged := mutatedCode.html.isSome
  let cssChanged := mutatedCode.css.isSome
  let jsChanged := mutatedCode.javascript.isSome
  let errs1 :=
    if !htmlChanged && !cssChanged && !jsChanged then
      ["NO_CHANGES: The mutation produced no changes to any code file."]
    else []
  let errs2 := errs1 ++ (match mutatedCode.html with
    | some h => checkHTMLSyntax h
    | none => [])
  let errs3 := errs2 ++ (match mutatedCode.css with
    | some c => checkCSSSyntax c
    | none => [])
  let errs4 := errs3 ++
    (if truthyO intent.property && truthyO intent.value then
       (if checkPropertyApplied intent originalCode mutatedCode then []
        else ["PROPERTY_NOT_APPLIED: Expected \"" ++ intent.property.getD "" ++
              ": " ++ intent.value.getD "" ++
              "\" but the change was not detected in the output."])
     else [])
  let errs5 := errs4 ++ (match mutatedCode.html with
    | some h =>
      if isTruncated h then
        ["TRUNCATED_HTML: The HTML output appears to be truncated (unclosed tags detected)."]
      else []
    | none => [])
  { valid := errs5.isEmpty, errors := errs5,
    feedbackPrompt := if errs5.isEmpty then none
                      else some (buildFeedbackPrompt intent errs5) }

/-!  ### claudeService.js — the mutation/validation/retry phase of the
orchestrator (processAdaptiveRequest, stages 3 and 4)

The LLM-backed executeMutation is abstracted as an oracle `call i
feedback`, the outcome of the i-th mutation call of the request with the
feedback prompt it was given (ok = the mutation result, error = the call
threw).  MAX_RETRIES = 1. -/

structure PhaseResult where
  result : Option MutationResult
  callsUsed : Nat
deriving DecidableEq, Repr

/-- Stage 4 and the bounded retry loop, entered with the result of
stage 3 and the number of calls made so far.  On a failed validation
exactly one retry call is made, re-prompting with the feedback; a
throwing retry keeps the previous result; the (possibly still invalid)
last result is always returned. -/
def afterMutationPhase (intent : Intent) (currentCode : DocumentState)
    (mres : MutationResult) (used : Nat)
    (call : Nat → Option String → Except String MutationResult) : PhaseResult :=
  let validation := validateMutation intent currentCode mres
  if !validation.valid && truthyO validation.feedbackPrompt then
    match call used validation.feedbackPrompt with
    | .ok m2 => { result := some m2, callsUsed := used + 1 }
    | .error _ => { result := some mres, callsUsed := used + 1 }
  else { result := some mres, callsUsed := used }

/-- Stages 3 to 4 of processAdaptiveRequest: a first mutation call; a
thrown fragment mutation escalates once to a full mutation; a second
throw aborts the adaptive pipeline (none: the orchestrator falls back
to the original flow).  Then validation and the bounded retry. -/
def mutationValidationPhase (intent : Intent) (currentCode : DocumentState)
    (call : Nat → Option String → Except String MutationResult) : PhaseResult :=
  match call 0 none with
  | .ok m0 => afterMutationPhase intent currentCode m0 1 call
  | .error _ =>
    match call 1 none with
    | .ok m1 => afterMutationPhase intent currentCode m1 2 call
    | .error _ => { result := none, callsUsed := 2 }

/-!  ### Concrete inputs used by the claim theorems and witnesses  -/

instance {e a : Type} [DecidableEq e] [DecidableEq a] : DecidableEq (Except e a)
  | .error x, .error y =>
    if h : x = y then .isTrue (by rw [h]) else .isFalse (by simp [h])
  | .error _, .ok _ => .isFalse (by simp)
  | .ok _, .error _ => .isFalse (by simp)
  | .ok x, .ok y =>
    if h : x = y then .isTrue (by rw [h]) else .isFalse (by simp [h])

def c1Intent : Intent :=
  { action := some "modify", targetHint := some ".box", scope := "local",
    property := none, value := none, strategy := "medium",
    hasSelection := true,
    selectionContext := some "Elements: [\x7b\"tag\":\"div\",\"class\":\"box\"\x7d]",
    normalizedMessage := some "make the box red", hasImage := false }

def c1Doc : DocumentState :=
  { html := "<div class=\"box\">old</div>", css := "", javascript := "" }

def c2xIntent : Intent :=
  { action := some "modify", targetHint := some "body", scope := "local",
    property := none, value := none, strategy := "full",
    hasSelection := true, selectionContext := some "[1, 2]",
    normalizedMessage := some "restyle the selected parts", hasImage := false }

def c2xDoc : DocumentState :=
  { html := "<main><p>hello</p></main>", css := "p \x7b color: red; \x7d",
    javascript := "" }

def c2wIntent : Intent :=
  { action := some "modify", targetHint := some "zzz", scope := "global",
    property := none, value := none, strategy := "medium",
    hasSelection := false, selectionContext := none,
    normalizedMessage := some "zzz", hasImage := false }

def c2wDoc : DocumentState :=
  { html := "<p>hi</p>", css := "", javascript := "" }

def c8Text : String := "\x7b\"javascript\": \"alert(1)\",\x7d"

def c8wText : String := "\x7b\"css\": \"x\","

def c10Ctx : ResolvedContext :=
  { selector := ".box", matchedTag := "div", surroundingHTML := "",
    surroundingCSS := "", strategy := "simple", resolvedBy := "direct" }

def c10Doc : DocumentState :=
  { html := "<div class=\"box\">old</div>", css := ".box \x7b color: red; \x7d",
    javascript := "" }

def c10Intent : Intent :=
  { action := some "modify", targetHint := some ".box", scope := "global",
    property := none, value := none, strategy := "simple",
    hasSelection := false, selectionContext := none,
    normalizedMessage := some "change the box", hasImage := false }

def c9Intent : Intent :=
  { action := some "modify", targetHint := some ".box", scope := "global",
    property := none, value := none, strategy := "simple",
    hasSelection := false, selectionContext := none,
    normalizedMessage := some "change the box color", hasImage := false }

def c9Doc : DocumentState :=
  { html := "<div class=\"box\">x</div>", css := "", javascript := "" }

def c9m0 : MutationResult :=
  { html := none, css := none, javascript := none,
    message := "nothing", mutationType := "fragment" }

def c9m2 : MutationResult :=
  { html := some "<div class=\"box\">y</div>", css := none, javascript := none,
    message := "done", mutationType := "fragment" }

def c9Call : Nat → Option String → Except String MutationResult :=
  fun i _ => if i = 0 then Except.ok c9m0 else Except.ok c9m2

def c7Full : String := "div .box \x7b color: red; \x7d"

def c7Frag : String := ".box \x7b color: blue; \x7d"

/-- Number of open-tag occurrences `<TAG[\s>/]` at positions in `qs`
that lie in `[s, bound)`. -/
def cntOpens (h tag : Chars) (s : Nat) (qs : List Nat) (bound : Nat) : Nat :=
  (qs.filter (fun q =>
    decide (s ≤ q) && openTagOccAt h tag q && decide (q < bound))).length

/-- Number of close-tag occurrences `</TAG>` at positions in `qs`
that lie in `[s, bound)`. -/
def cntCloses (h tag : Chars) (s : Nat) (qs : List Nat) (bound : Nat) : Nat :=
  (qs.filter (fun q =>
    decide (s ≤ q) && closeTagOccAt h tag q && decide (q < bound))).length

/-- Opens of `<TAG[\s>/]` counted over the whole document at positions
in `[s, bound)` (the claim-level count for C6). -/
def countOpens (html tag : String) (s bound : Nat) : Nat :=
  cntOpens (lowerChars html.data) (lowerChars tag.data) s
    (List.range (lowerChars html.data).length) bound

/-- Closes of `</TAG>` counted over the whole document in `[s, bound)`. -/
def countCloses (html tag : String) (s bound : Nat) : Nat :=
  cntCloses (lowerChars html.data) (lowerChars tag.data) s
    (List.range (lowerChars html.data).length) bound

/-- C1: For every intent with hasSelection = true whose selectionContext
parses to a non-empty list of element descriptors, resolveContext is
claimed to return a ResolvedContext with selector 'body', resolvedBy =
'selection' and strategy 'full'.  The code instead throws: the selection
branch assigns `finalStrategy = 'full'` (contextService.js line 326)
before the `let finalStrategy` on line 364 executes, a temporal-dead-zone
ReferenceError.  At this concrete failing input the selection strategy
does fire (the selection context parses to a one-element array), and
resolveContext evaluates to the ReferenceError instead of the claimed
ResolvedContext. -/
theorem C1_selection_reference_error :
    (trySelectionStrategy c1Intent.selectionContext c1Doc.html).isSome = true ∧
    resolveContext c1Intent c1Doc = Except.error JSError.referenceError := by
  constructor
  · decide
  · decide

/-- C2 counterexample: the claim says resolveContext terminates normally
with a string selector for every intent and non-empty document.  For an
intent whose selection strategy fires it instead throws the
temporal-dead-zone ReferenceError, here evaluated on a non-empty
document. -/
theorem C2_selection_throws_counterexample :
    c2xDoc.html ≠ "" ∧
    resolveContext c2xIntent c2xDoc = Except.error JSError.referenceError := by
  constructor
  · decide
  · decide

/-- C2 amended: for every intent for which the selection strategy does
not fire (hasSelection false, or a selection context without a parseable
non-empty element array), resolveContext terminates normally with a
ResolvedContext, and when the remaining strategies 1-4 all fail the
selector is exactly 'body' with resolvedBy = 'absolute-fallback'. -/
theorem C2_fallback_totality (intent : Intent) (code : DocumentState)
    (hdoc : code.html ≠ "")
    (hsel : (intent.hasSelection &&
             (trySelectionStrategy intent.selectionContext code.html).isSome) = false) :
    (∃ rc, resolveContext intent code = Except.ok rc) ∧
    (tryDirectSelector intent.targetHint code.html = none →
     tryVisualSynonyms intent.targetHint code.html = none →
     tryTextSearch intent.targetHint code.html = none →
     tryActionFallback intent.action code.html = none →
     ∃ rc, resolveContext intent code = Except.ok rc ∧
       rc.selector = "body" ∧ rc.resolvedBy = "absolute-fallback") := by
  have _ := hdoc
  constructor
  · simp only [resolveContext, hsel, Bool.false_eq_true, if_false]
    exact ⟨_, rfl⟩
  · intro h1 h2 h3 h4
    simp only [resolveContext, hsel, h1, h2, h3, h4, Bool.false_eq_true, if_false]
    exact ⟨_, rfl, rfl, rfl⟩

/-- Witness for C2: at a concrete intent whose hint matches nothing, the
amended theorem produces the absolute body fallback. -/
theorem C2_fallback_totality_witness :
    ∃ rc, resolveContext c2wIntent c2wDoc = Except.ok rc ∧
      rc.selector = "body" ∧ rc.resolvedBy = "absolute-fallback" :=
  (C2_fallback_totality c2wIntent c2wDoc (by decide) (by decide)).2
    (by decide) (by decide) (by decide) (by decide)

/-- C3 counterexample: "build a red box" contains the complex phrase
"build a", yet the heuristic returns "simple", because the simple-keyword
check ("red", with no layout keyword) runs first — complex does not beat
everything. -/
theorem C3_complex_loses_to_simple_counterexample :
    includesAny (toLowerStr "build a red box") COMPLEX_ACTIONS = true ∧
    determineStrategy none "build a red box" = "simple" ∧
    determineStrategy none "build a red box" ≠ "full" := by
  refine ⟨by decide, by decide, by decide⟩

/-- C3 amended: the heuristic returns "simple" exactly when a simple
keyword is present and no layout keyword is (the layout veto); a complex
phrase wins only when that simple case does not apply; with no simple,
complex or layout match the tier is "medium". -/
theorem C3_tier_characterization (action : Option String) (m : String) :
    ((includesAny (toLowerStr m) SIMPLE_ACTIONS &&
      !includesAny (toLowerStr m) LAYOUT_ACTIONS) = true →
      determineStrategy action m = "simple") ∧
    (determineStrategy action m = "simple" →
      (includesAny (toLowerStr m) SIMPLE_ACTIONS &&
       !includesAny (toLowerStr m) LAYOUT_ACTIONS) = true) ∧
    ((includesAny (toLowerStr m) SIMPLE_ACTIONS &&
      !includesAny (toLowerStr m) LAYOUT_ACTIONS) = false →
      includesAny (toLowerStr m) COMPLEX_ACTIONS = true →
      determineStrategy action m = "full") ∧
    (includesAny (toLowerStr m) SIMPLE_ACTIONS = false →
     includesAny (toLowerStr m) COMPLEX_ACTIONS = false →
     includesAny (toLowerStr m) LAYOUT_ACTIONS = false →
     determineStrategy action m = "medium") := by
  refine ⟨?_, ?_, ?_, ?_⟩
  · intro h
    simp only [determineStrategy, h, if_true]
  · intro h
    by_cases hs : (includesAny (toLowerStr m) SIMPLE_ACTIONS &&
        !includesAny (toLowerStr m) LAYOUT_ACTIONS) = true
    · exact hs
    · exfalso
      simp only [determineStrategy, hs, Bool.false_eq_true, if_false] at h
      by_cases hc : includesAny (toLowerStr m) COMPLEX_ACTIONS = true
      · simp only [hc, if_true] at h
        exact absurd h (by decide)
      · simp only [hc, Bool.false_eq_true, if_false] at h
        by_cases hl : includesAny (toLowerStr m) LAYOUT_ACTIONS = true
        · simp only [hl, if_true] at h
          exact absurd h (by decide)
        · simp only [hl, Bool.false_eq_true, if_false] at h
          exact absurd h (by decide)
  · intro hs hc
    simp only [determineStrategy, hs, hc, Bool.false_eq_true, if_false, if_true]
  · intro hs hc hl
    simp only [determineStrategy, hs, hc, hl, Bool.false_and, Bool.false_eq_true,
      if_false]

/-- Witness for C3: the amended characterization evaluated at a simple
request, giving the "simple" tier. -/
theorem C3_tier_characterization_witness :
    determineStrategy none "make it red" = "simple" :=
  (C3_tier_characterization none "make it red").1 (by decide)

/-- C4 counterexample: for the uncompilable selector "div span"
(descendant syntax is unsupported), mergeHTMLFragment returns only the
fragment — the original document is dropped, contradicting the claim
that the result always contains the full document with the fragment
appended. -/
theorem C4_uncompilable_selector_drops_document :
    buildSelectorPattern "div span" = none ∧
    mergeHTMLFragment "<p>a</p>" "<b>x</b>" "div span" "replace" = "<b>x</b>" ∧
    containsStr (mergeHTMLFragment "<p>a</p>" "<b>x</b>" "div span" "replace")
      "<p>a</p>" = false := by
  refine ⟨by decide, by decide, by decide⟩

/-- C4 amended: when the compiled selector pattern matches nowhere in the
document, or a match is found but no balanced closing tag exists, the
result is exactly the original document followed by a newline and the
fragment; when the selector fails to compile at all, the result is the
fragment alone (the fragment is never dropped, but in that case the
original document is). -/
theorem C4_unresolved_selector_append (full frag sel mode : String)
    (hf : full.data ≠ []) (hg : frag.data ≠ []) (hs : sel.data ≠ []) :
    (buildSelectorPattern sel = none →
      mergeHTMLFragment full frag sel mode = frag) ∧
    (∀ pat, buildSelectorPattern sel = some pat →
      execSelectorPattern pat full = none →
      mergeHTMLFragment full frag sel mode = full ++ "\n" ++ frag) ∧
    (∀ pat s e t, buildSelectorPattern sel = some pat →
      execSelectorPattern pat full = some (s, e, t) →
      findClosingTag full (tagNameOfPat pat) s = none →
      mergeHTMLFragment full frag sel mode = full ++ "\n" ++ frag) := by
  have hf' : full.data.isEmpty = false := by
    cases h : full.data with
    | nil => exact absurd h hf
    | cons a l => rfl
  have hg' : frag.data.isEmpty = false := by
    cases h : frag.data with
    | nil => exact absurd h hg
    | cons a l => rfl
  have hs' : sel.data.isEmpty = false := by
    cases h : sel.data with
    | nil => exact absurd h hs
    | cons a l => rfl
  refine ⟨?_, ?_, ?_⟩
  · intro hb
    simp only [mergeHTMLFragment, hf', hg', hs', hb, Bool.false_eq_true, if_false,
      Bool.or_self, Bool.or_false, Bool.false_or]
  · intro pat hb he
    simp only [mergeHTMLFragment, hf', hg', hs', hb, he, Bool.false_eq_true, if_false,
      Bool.or_self, Bool.or_false, Bool.false_or]
  · intro pat s e t hb he hc
    simp only [mergeHTMLFragment, hf', hg', hs', hb, he, hc, Bool.false_eq_true,
      if_false, Bool.or_self, Bool.or_false, Bool.false_or]

/-- Witness for C4: a class selector that occurs nowhere in the document
appends the fragment after the intact document. -/
theorem C4_unresolved_selector_append_witness :
    mergeHTMLFragment "<p>a</p>" "<b>x</b>" ".missing" "replace" =
      "<p>a</p>" ++ "\n" ++ "<b>x</b>" :=
  (C4_unresolved_selector_append "<p>a</p>" "<b>x</b>" ".missing" "replace"
      (by decide) (by decide) (by decide)).2.1
    (.classPat "missing") (by decide) (by decide)

/-- C8 counterexample: this response fails strict JSON parsing (trailing
comma) and the regex fallback recovers a JavaScript field — yet
parseJSON still returns null, because the fallback's success condition
only looks at htmlFragment, cssFragment, html and css, not at the
javascript/jsFragment fields.  The claim's "if and only if at least one
code field — including a JavaScript/jsFragment field — was recovered"
is therefore false. -/
theorem C8_js_only_recovery_returns_null :
    (jsonParse (String.mk (cleanForJson c8Text))).isNone = true ∧
    extractField "javascript" (cleanForJson c8Text) = some "alert(1)" ∧
    (mutParseJSON c8Text).isNone = true := by
  refine ⟨by decide, by decide, by decide⟩

/-- C8 amended: when strict parsing of the cleaned text fails, the
fallback succeeds exactly when one of the four html/css fields
(htmlFragment, cssFragment, html, css) is recovered non-empty; a
recovered javascript or jsFragment field alone does not prevent the
null return (on which the mutation throws its parse error). -/
theorem C8_fallback_success_iff_html_css (text : String)
    (hfail : (jsonParse (String.mk (cleanForJson text))).isNone = true) :
    (mutParseJSON text).isSome = true ↔
    (truthyO (extractField "htmlFragment" (cleanForJson text)) ||
     truthyO (extractField "cssFragment" (cleanForJson text)) ||
     truthyO (extractField "html" (cleanForJson text)) ||
     truthyO (extractField "css" (cleanForJson text))) = true := by
  have hfail' : jsonParse (String.mk (cleanForJson text)) = none :=
    Option.isNone_iff_eq_none.mp hfail
  simp only [mutParseJSON]
  rw [hfail']
  by_cases h : (truthyO (extractField "htmlFragment" (cleanForJson text)) ||
      truthyO (extractField "cssFragment" (cleanForJson text)) ||
      truthyO (extractField "html" (cleanForJson text)) ||
      truthyO (extractField "css" (cleanForJson text))) = true
  · simp only [h, if_true, Option.isSome_some]
  · simp only [Bool.not_eq_true] at h
    simp only [h, Bool.false_eq_true, if_false, Option.isSome_none]

/-- Witness for C8: a response whose only recovered field is a non-empty
css field makes the fallback succeed. -/
theorem C8_fallback_success_iff_html_css_witness :
    (mutParseJSON c8wText).isSome = true :=
  (C8_fallback_success_iff_html_css c8wText (by decide)).mpr (by decide)

/-- C10: in a fragment mutation each code field of the result is null
exactly when the merged text string-equals the pre-mutation field, every
non-null field differs from its pre-mutation value (and carries the
merged text), and an all-null result is reported by the validator as
NO_CHANGES and invalid. -/
theorem C10_fragment_null_semantics (parsed : JsonVal)
    (context : ResolvedContext) (code : DocumentState) :
    (((fragmentResultOf parsed context code).html = none) ↔
      fragmentMergedHTML parsed code context.selector = code.html) ∧
    (((fragmentResultOf parsed context code).css = none) ↔
      fragmentMergedCSS parsed code context.selector = code.css) ∧
    (((fragmentResultOf parsed context code).javascript = none) ↔
      fragmentMergedJS parsed code = code.javascript) ∧
    (∀ h, (fragmentResultOf parsed context code).html = some h →
      h ≠ code.html ∧ h = fragmentMergedHTML parsed code context.selector) ∧
    (∀ c, (fragmentResultOf parsed context code).css = some c →
      c ≠ code.css ∧ c = fragmentMergedCSS parsed code context.selector) ∧
    (∀ j, (fragmentResultOf parsed context code).javascript = some j →
      j ≠ code.javascript ∧ j = fragmentMergedJS parsed code) ∧
    ((fragmentResultOf parsed context code).html = none →
     (fragmentResultOf parsed context code).css = none →
     (fragmentResultOf parsed context code).javascript = none →
     ∀ intent,
       (validateMutation intent code (fragmentResultOf parsed context code)).valid = false ∧
       "NO_CHANGES: The mutation produced no changes to any code file." ∈
         (validateMutation intent code (fragmentResultOf parsed context code)).errors) := by
  refine ⟨?_, ?_, ?_, ?_, ?_, ?_, ?_⟩
  · by_cases h : fragmentMergedHTML parsed code context.selector = code.html
    · simp [fragmentResultOf, h]
    · simp [fragmentResultOf, h]
  · by_cases h : fragmentMergedCSS parsed code context.selector = code.css
    · simp [fragmentResultOf, h]
    · simp [fragmentResultOf, h]
  · by_cases h : fragmentMergedJS parsed code = code.javascript
    · simp [fragmentResultOf, h]
    · simp [fragmentResultOf, h]
  · intro h hh
    by_cases hx : fragmentMergedHTML parsed code context.selector = code.html
    · simp [fragmentResultOf, hx] at hh
    · simp [fragmentResultOf, hx] at hh
      exact ⟨hh ▸ hx, hh.symm⟩
  · intro c hc
    by_cases hx : fragmentMergedCSS parsed code context.selector = code.css
    · simp [fragmentResultOf, hx] at hc
    · simp [fragmentResultOf, hx] at hc
      exact ⟨hc ▸ hx, hc.symm⟩
  · intro j hj
    by_cases hx : fragmentMergedJS parsed code = code.javascript
    · simp [fragmentResultOf, hx] at hj
    · simp [fragmentResultOf, hx] at hj
      exact ⟨hj ▸ hx, hj.symm⟩
  · intro hh hc hj intent
    constructor
    · simp only [validateMutation, hh, hc, hj, Option.isSome_none]
      simp
    · simp only [validateMutation, hh, hc, hj, Option.isSome_none]
      simp

/-- Witness for C10: a parsed response carrying no fragments leaves all
merged texts equal to the current code, so every field is null and the
validator reports NO_CHANGES. -/
theorem C10_fragment_null_semantics_witness :
    (validateMutation c10Intent c10Doc
        (fragmentResultOf (JsonVal.obj []) c10Ctx c10Doc)).valid = false ∧
    "NO_CHANGES: The mutation produced no changes to any code file." ∈
      (validateMutation c10Intent c10Doc
        (fragmentResultOf (JsonVal.obj []) c10Ctx c10Doc)).errors :=
  (C10_fragment_null_semantics (JsonVal.obj []) c10Ctx c10Doc).2.2.2.2.2.2
    (by decide) (by decide) (by decide) c10Intent

/-- The feedback prompt built for a failed validation is never the empty
string (it starts with a fixed sentence), hence truthy in JS. -/
theorem feedback_prompt_truthy (intent : Intent) (errs : List String) :
    truthyO (some (buildFeedbackPrompt intent errs)) = true := by
  have h : (buildFeedbackPrompt intent errs).data ≠ [] := by
    intro hcontra
    unfold buildFeedbackPrompt at hcontra
    simp only [String.data_append, List.append_eq_nil] at hcontra
    exact absurd hcontra.2 (by decide)
  simp only [truthyO, Bool.not_eq_true']
  exact Bool.eq_false_iff.mpr (fun hx => h (List.isEmpty_iff.mp hx))

/-- An invalid validation outcome carries the feedback prompt built from
its error list. -/
theorem validateMutation_feedback (intent : Intent) (code : DocumentState)
    (m : MutationResult) (hv : (validateMutation intent code m).valid = false) :
    (validateMutation intent code m).feedbackPrompt =
      some (buildFeedbackPrompt intent (validateMutation intent code m).errors) := by
  simp only [validateMutation] at hv ⊢
  rw [hv]
  simp

/-- C9: when the first mutation result fails validation, the
orchestrator makes exactly one additional mutation call (re-prompting
with the feedback string of that validation), and the returned result is
the retry's result when the retry call succeeded — regardless of whether
its validation passes — or the first result when the retry threw; the
phase never loses the result. -/
theorem C9_bounded_retry (intent : Intent) (code : DocumentState)
    (call : Nat → Option String → Except String MutationResult)
    (m0 : MutationResult)
    (h0 : call 0 none = Except.ok m0)
    (hv : (validateMutation intent code m0).valid = false) :
    (mutationValidationPhase intent code call).callsUsed = 2 ∧
    ∃ m, (mutationValidationPhase intent code call).result = some m ∧
      m = (match call 1 (validateMutation intent code m0).feedbackPrompt with
           | .ok m2 => m2
           | .error _ => m0) := by
  have hfb : truthyO (validateMutation intent code m0).feedbackPrompt = true := by
    rw [validateMutation_feedback intent code m0 hv]
    exact feedback_prompt_truthy intent _
  have h1 : mutationValidationPhase intent code call =
      afterMutationPhase intent code m0 1 call := by
    unfold mutationValidationPhase
    rw [h0]
  rw [h1]
  simp only [afterMutationPhase, hv, hfb, Bool.not_false, Bool.true_and, if_true]
  cases hc : call 1 (validateMutation intent code m0).feedbackPrompt with
  | ok m2 =>
    exact ⟨rfl, m2, rfl, rfl⟩
  | error e =>
    exact ⟨rfl, m0, rfl, rfl⟩

/-- Witness for C9: a first result with no changes fails validation, the
retry call result is returned, exactly two calls are made. -/
theorem C9_bounded_retry_witness :
    (mutationValidationPhase c9Intent c9Doc c9Call).callsUsed = 2 ∧
    ∃ m, (mutationValidationPhase c9Intent c9Doc c9Call).result = some m ∧
      m = (match c9Call 1 (validateMutation c9Intent c9Doc c9m0).feedbackPrompt with
           | .ok m2 => m2
           | .error _ => c9m0) :=
  C9_bounded_retry c9Intent c9Doc c9Call c9m0 (by decide) (by decide)

/-- C7 counterexample: the original CSS has no rule whose selector is
exactly ".box" (its only rule's selector is "div .box"), so per the
claim the fragment rule should have been appended and "color: red" kept;
instead the substring-based rule regex fires inside "div .box" and the
rule text is replaced in place. -/
theorem C7_substring_selector_counterexample :
    (extractCSSRules c7Full).map (fun r => r.selector) = ["div .box"] ∧
    (extractCSSRules c7Frag).map (fun r => r.selector) = [".box"] ∧
    mergeCSSFragment c7Full c7Frag ".box" = "div .box \x7b color: blue; \x7d" ∧
    containsStr (mergeCSSFragment c7Full c7Frag ".box") "color: red" = false := by
  refine ⟨by decide, by decide, by decide, by decide⟩

/-- A full rule occurrence of a selector implies an occurrence of the
selector-plus-open-brace pattern used by the append phase. -/
theorem cssRuleTest_openTest (css sel : String)
    (h : cssRuleTest css sel = true) : cssSelOpenTest css sel = true := by
  unfold cssRuleTest at h
  rw [List.any_eq_true] at h
  obtain ⟨p, hp, hocc⟩ := h
  unfold cssSelOpenTest
  rw [List.any_eq_true]
  refine ⟨p, hp, ?_⟩
  unfold cssRuleOccAt at hocc
  split at hocc
  case isTrue hlit =>
    split at hocc
    case isTrue hbr =>
      rw [hlit, hbr]
      rfl
    case isFalse hbr => simp at hocc
  case isFalse hlit => simp at hocc

/-- C7 amended: replacement is keyed by an occurrence of the
(regex-escaped, hence literal) fragment selector followed by optional
whitespace and an open brace anywhere in the css — substring semantics,
not exact rule-selector equality.  For a single-rule fragment: when the
pattern occurs, every matching rule text is replaced in place and
nothing is appended; when it occurs nowhere, the fragment is appended
after the trimmed original.  The spec's concrete example does hold:
merging a .box rule over a .box rule leaves exactly one .box rule with
the new declarations. -/
theorem C7_css_upsert_characterization (fullCSS fragCSS sel : String)
    (r : CSSRule)
    (hfull : fullCSS.data ≠ []) (hfrag : fragCSS.data ≠ [])
    (hr : extractCSSRules fragCSS = [r]) :
    (cssRuleTest fullCSS r.selector = true →
      mergeCSSFragment fullCSS fragCSS sel =
        cssReplaceAll fullCSS r.selector r.full) ∧
    (cssRuleTest fullCSS r.selector = false →
      mergeCSSFragment fullCSS fragCSS sel =
        jsTrim fullCSS ++ "\n\n" ++ jsTrim fragCSS) ∧
    mergeCSSFragment ".box \x7b color: red; \x7d" ".box \x7b color: blue; \x7d"
      ".box" = ".box \x7b color: blue; \x7d" ∧
    extractCSSRules (mergeCSSFragment ".box \x7b color: red; \x7d"
        ".box \x7b color: blue; \x7d" ".box") =
      [{ selector := ".box", body := "color: blue;",
         full := ".box \x7b color: blue; \x7d" }] := by
  have hfull' : fullCSS.data.isEmpty = false := by
    cases h : fullCSS.data with
    | nil => exact absurd h hfull
    | cons a l => rfl
  have hfrag' : fragCSS.data.isEmpty = false := by
    cases h : fragCSS.data with
    | nil => exact absurd h hfrag
    | cons a l => rfl
  refine ⟨?_, ?_, by decide, by decide⟩
  · intro ht
    have hopen : cssSelOpenTest fullCSS r.selector = true :=
      cssRuleTest_openTest fullCSS r.selector ht
    simp only [mergeCSSFragment, hfull', hfrag', hr, ht, hopen, Bool.false_and,
      Bool.false_eq_true, if_false, List.isEmpty_cons, List.foldl_cons,
      List.foldl_nil, if_true, Bool.not_true, Bool.not_false]
  · intro ht
    simp only [mergeCSSFragment, hfull', hfrag', hr, ht, Bool.false_and,
      Bool.false_eq_true, if_false, List.isEmpty_cons, List.foldl_cons,
      List.foldl_nil, Bool.not_true, Bool.not_false, if_true]

/-- Witness for C7: the spec's .box example goes through the in-place
replacement branch of the amended theorem. -/
theorem C7_css_upsert_characterization_witness :
    mergeCSSFragment ".box \x7b color: red; \x7d" ".box \x7b color: blue; \x7d"
      ".box" =
    cssReplaceAll ".box \x7b color: red; \x7d" ".box"
      ".box \x7b color: blue; \x7d" :=
  (C7_css_upsert_characterization ".box \x7b color: red; \x7d"
      ".box \x7b color: blue; \x7d" ".box"
      { selector := ".box", body := "color: blue;",
        full := ".box \x7b color: blue; \x7d" }
      (by decide) (by decide) (by decide)).1 (by decide)

/-!  ### C6 — the closing-tag finder returns a depth-zero close  -/

theorem cntOpens_cons (h tag : Chars) (s q0 : Nat) (rest : List Nat) (bound : Nat) :
    cntOpens h tag s (q0 :: rest) bound =
    (if decide (s ≤ q0) && openTagOccAt h tag q0 && decide (q0 < bound)
     then 1 else 0) + cntOpens h tag s rest bound := by
  unfold cntOpens
  rw [List.filter_cons]
  split
  · simp [Nat.add_comm]
  · simp

theorem cntCloses_cons (h tag : Chars) (s q0 : Nat) (rest : List Nat) (bound : Nat) :
    cntCloses h tag s (q0 :: rest) bound =
    (if decide (s ≤ q0) && closeTagOccAt h tag q0 && decide (q0 < bound)
     then 1 else 0) + cntCloses h tag s rest bound := by
  unfold cntCloses
  rw [List.filter_cons]
  split
  · simp [Nat.add_comm]
  · simp

/-- A position cannot carry both an open and a close occurrence when the
tag name is a non-empty word-character string (the character after '<'
would have to be both the first tag character and '/'). -/
theorem open_close_disjoint (h tag : Chars) (hne : tag ≠ [])
    (hw : tag.all wordChar = true) (q : Nat)
    (ho : openTagOccAt h tag q = true) (hc : closeTagOccAt h tag q = true) :
    False := by
  cases tag with
  | nil => exact hne rfl
  | cons t ts =>
    have hwt : wordChar t = true := by
      have := List.all_eq_true.mp hw t (List.mem_cons_self t ts)
      exact this
    unfold openTagOccAt at ho
    unfold closeTagOccAt at hc
    have ho1 : litAt h ('<' :: t :: ts) q = true := by
      rw [Bool.and_eq_true] at ho
      exact ho.1
    have hc1 : litAt h ('<' :: '/' :: ((t :: ts) ++ ['>'])) q = true := hc
    unfold litAt at ho1 hc1
    have ho2 := List.isPrefixOf_iff_prefix.mp ho1
    have hc2 := List.isPrefixOf_iff_prefix.mp hc1
    rcases ho2 with ⟨u, hu⟩
    rcases hc2 with ⟨v, hv⟩
    rw [← hu] at hv
    simp at hv
    obtain ⟨hslash, -⟩ := hv
    rw [← hslash] at hwt
    exact absurd hwt (by decide)

theorem cntOpens_zero (h tag : Chars) (s : Nat) (qs : List Nat) (bound : Nat)
    (hq : ∀ q ∈ qs, ¬(q < bound)) : cntOpens h tag s qs bound = 0 := by
  unfold cntOpens
  rw [List.length_eq_zero, List.filter_eq_nil_iff]
  intro a ha
  simp [hq a ha]

theorem cntCloses_zero (h tag : Chars) (s : Nat) (qs : List Nat) (bound : Nat)
    (hq : ∀ q ∈ qs, ¬(q < bound)) : cntCloses h tag s qs bound = 0 := by
  unfold cntCloses
  rw [List.length_eq_zero, List.filter_eq_nil_iff]
  intro a ha
  simp [hq a ha]

/-- The depth walk of findClosingTag, specified: on a sorted position
list it returns the first close-tag position at which the running count
of opens exceeds the count of closes by exactly one. -/
theorem fctGo_spec (h tag : Chars) (s : Nat)
    (hdisj : ∀ q, openTagOccAt h tag q = true → closeTagOccAt h tag q = true → False) :
    ∀ (qs : List Nat), qs.Pairwise (· < ·) → ∀ (d : Int) (r : Nat),
      fctGo h tag s d qs = some r →
      r ∈ qs ∧ s ≤ r ∧ closeTagOccAt h tag r = true ∧
      d + (cntOpens h tag s qs r : Int) - (cntCloses h tag s qs r : Int) = 1 ∧
      (∀ q ∈ qs, s ≤ q → closeTagOccAt h tag q = true → q < r →
        d + (cntOpens h tag s qs q : Int) - (cntCloses h tag s qs q : Int) ≠ 1) := by
  intro qs
  induction qs with
  | nil =>
    intro _ d r hr
    simp [fctGo] at hr
  | cons q0 rest ih =>
    intro hpw d r hr
    have hpw' : rest.Pairwise (· < ·) := (List.pairwise_cons.mp hpw).2
    have hlt : ∀ x ∈ rest, q0 < x := (List.pairwise_cons.mp hpw).1
    unfold fctGo at hr
    by_cases hopen : (decide (s ≤ q0) && openTagOccAt h tag q0) = true
    · rw [if_pos hopen] at hr
      rw [Bool.and_eq_true] at hopen
      obtain ⟨hs0, hopen'⟩ := hopen
      obtain ⟨hrmem, hsr, hcr, hcount, hmin⟩ := ih hpw' (d + 1) r hr
      have hq0r : q0 < r := hlt r hrmem
      have hcl0 : closeTagOccAt h tag q0 = false := by
        cases hcc : closeTagOccAt h tag q0 with
        | false => rfl
        | true => exact (hdisj q0 hopen' hcc).elim
      refine ⟨List.mem_cons_of_mem _ hrmem, hsr, hcr, ?_, ?_⟩
      · rw [cntOpens_cons, cntCloses_cons]
        simp only [hs0, hopen', hcl0, decide_eq_true hq0r, Bool.and_true,
          Bool.true_and, Bool.and_false, Bool.false_and, if_true, if_false]
        push_cast
        omega
      · intro q hq hsq hclq hqr
        rcases List.mem_cons.mp hq with rfl | hqrest
        · exact (hdisj q hopen' hclq).elim
        · have hq0q : q0 < q := hlt q hqrest
          have hne := hmin q hqrest hsq hclq hqr
          rw [cntOpens_cons, cntCloses_cons]
          simp only [hs0, hopen', hcl0, decide_eq_true hq0q, Bool.and_true,
            Bool.true_and, Bool.and_false, Bool.false_and, if_true, if_false]
          push_cast
          push_cast at hne
          omega
    · rw [if_neg hopen] at hr
      have hopenf : (decide (s ≤ q0) && openTagOccAt h tag q0) = false :=
        Bool.eq_false_iff.mpr hopen
      by_cases hclose : (decide (s ≤ q0) && closeTagOccAt h tag q0) = true
      · rw [if_pos hclose] at hr
        rw [Bool.and_eq_true] at hclose
        obtain ⟨hs0, hcl'⟩ := hclose
        by_cases hd : d - 1 = 0
        · rw [if_pos hd] at hr
          have hq0r : q0 = r := by injection hr
          subst hq0r
          refine ⟨List.mem_cons_self _ _, by simpa using hs0, hcl', ?_, ?_⟩
          · have h1 : cntOpens h tag s (q0 :: rest) q0 = 0 := by
              apply cntOpens_zero
              intro q hq
              rcases List.mem_cons.mp hq with rfl | hqrest
              · omega
              · have := hlt q hqrest
                omega
            have h2 : cntCloses h tag s (q0 :: rest) q0 = 0 := by
              apply cntCloses_zero
              intro q hq
              rcases List.mem_cons.mp hq with rfl | hqrest
              · omega
              · have := hlt q hqrest
                omega
            rw [h1, h2]
            push_cast
            omega
          · intro q hq hsq hclq hqr
            rcases List.mem_cons.mp hq with rfl | hqrest
            · omega
            · have := hlt q hqrest
              omega
        · rw [if_neg hd] at hr
          obtain ⟨hrmem, hsr, hcr, hcount, hmin⟩ := ih hpw' (d - 1) r hr
          have hq0r : q0 < r := hlt r hrmem
          have hop0 : openTagOccAt h tag q0 = false := by
            cases hoc : openTagOccAt h tag q0 with
            | false => rfl
            | true => exact (hdisj q0 hoc hcl').elim
          refine ⟨List.mem_cons_of_mem _ hrmem, hsr, hcr, ?_, ?_⟩
          · rw [cntOpens_cons, cntCloses_cons]
            simp only [hs0, hcl', hop0, decide_eq_true hq0r, Bool.and_true,
              Bool.true_and, Bool.and_false, Bool.false_and, if_true, if_false]
            push_cast
            omega
          · intro q hq hsq hclq hqr
            rcases List.mem_cons.mp hq with rfl | hqrest
            · have h1 : cntOpens h tag s (q :: rest) q = 0 := by
                apply cntOpens_zero
                intro x hx
                rcases List.mem_cons.mp hx with rfl | hxrest
                · omega
                · have := hlt x hxrest
                  omega
              have h2 : cntCloses h tag s (q :: rest) q = 0 := by
                apply cntCloses_zero
                intro x hx
                rcases List.mem_cons.mp hx with rfl | hxrest
                · omega
                · have := hlt x hxrest
                  omega
              rw [h1, h2]
              push_cast
              omega
            · have hq0q : q0 < q := hlt q hqrest
              have hne := hmin q hqrest hsq hclq hqr
              rw [cntOpens_cons, cntCloses_cons]
              simp only [hs0, hcl', hop0, decide_eq_true hq0q, Bool.and_true,
                Bool.true_and, Bool.and_false, Bool.false_and, if_true, if_false]
              push_cast
              push_cast at hne
              omega
      · rw [if_neg hclose] at hr
        have hclosef : (decide (s ≤ q0) && closeTagOccAt h tag q0) = false :=
          Bool.eq_false_iff.mpr hclose
        obtain ⟨hrmem, hsr, hcr, hcount, hmin⟩ := ih hpw' d r hr
        refine ⟨List.mem_cons_of_mem _ hrmem, hsr, hcr, ?_, ?_⟩
        · rw [cntOpens_cons, cntCloses_cons]
          simp only [hopenf, hclosef, Bool.false_and, if_false]
          push_cast
          omega
        · intro q hq hsq hclq hqr
          rcases List.mem_cons.mp hq with rfl | hqrest
          · exact absurd (by simp [hsq, hclq] : (decide (s ≤ q) && closeTagOccAt h tag q) = true)
              (by simp [hclosef])
          · have hne := hmin q hqrest hsq hclq hqr
            rw [cntOpens_cons, cntCloses_cons]
            simp only [hopenf, hclosef, Bool.false_and, if_false]
            push_cast
            push_cast at hne
            omega

/-- C6: when findClosingTag returns an index, that index carries a
literal close tag of the (lowercased) tag name, lies at or after the
start index, the same-name opens in [start, index) exceed the closes by
exactly one (depth zero is reached exactly there), and it is the first
close position with that property.  Open-tag counting is
word-boundary-safe: in "<div><divx></div>" the "<divx" text does not
count toward "div"'s depth, so the close at index 11 is returned. -/
theorem C6_closing_tag_depth_zero (html tag : String) (s r : Nat)
    (hne : lowerChars tag.data ≠ [])
    (hw : (lowerChars tag.data).all wordChar = true)
    (hfct : findClosingTag html (some tag) s = some r) :
    closeTagOccAt (lowerChars html.data) (lowerChars tag.data) r = true ∧
    s ≤ r ∧
    (countOpens html tag s r : Int) - (countCloses html tag s r : Int) = 1 ∧
    (∀ q, s ≤ q → q < r →
      closeTagOccAt (lowerChars html.data) (lowerChars tag.data) q = true →
      (countOpens html tag s q : Int) - (countCloses html tag s q : Int) ≠ 1) ∧
    findClosingTag "<div><divx></div>" (some "div") 0 = some 11 := by
  have hdisj : ∀ q, openTagOccAt (lowerChars html.data) (lowerChars tag.data) q = true →
      closeTagOccAt (lowerChars html.data) (lowerChars tag.data) q = true → False :=
    fun q ho hc =>
      open_close_disjoint (lowerChars html.data) (lowerChars tag.data) hne hw q ho hc
  have hfct' : fctGo (lowerChars html.data) (lowerChars tag.data) s 0
      (List.range (lowerChars html.data).length) = some r := by
    simpa [findClosingTag] using hfct
  obtain ⟨hrmem, hsr, hcr, hcount, hmin⟩ :=
    fctGo_spec (lowerChars html.data) (lowerChars tag.data) s hdisj
      (List.range (lowerChars html.data).length) (List.pairwise_lt_range _) 0 r hfct'
  refine ⟨hcr, hsr, ?_, ?_, by decide⟩
  · unfold countOpens countCloses
    omega
  · intro q hsq hqr hclq
    have hqmem : q ∈ List.range (lowerChars html.data).length :=
      List.mem_range.mpr (lt_trans hqr (List.mem_range.mp hrmem))
    have hne2 := hmin q hqmem hsq hclq hqr
    unfold countOpens countCloses
    omega

/-- Witness for C6 at a nested-free concrete document. -/
theorem C6_closing_tag_depth_zero_witness :
    closeTagOccAt (lowerChars ("<div><p>x</p></div>").data)
      (lowerChars ("div").data) 13 = true ∧
    (0 : Nat) ≤ 13 ∧
    (countOpens "<div><p>x</p></div>" "div" 0 13 : Int) -
      (countCloses "<div><p>x</p></div>" "div" 0 13 : Int) = 1 ∧
    (∀ q, 0 ≤ q → q < 13 →
      closeTagOccAt (lowerChars ("<div><p>x</p></div>").data)
        (lowerChars ("div").data) q = true →
      (countOpens "<div><p>x</p></div>" "div" 0 q : Int) -
        (countCloses "<div><p>x</p></div>" "div" 0 q : Int) ≠ 1) ∧
    findClosingTag "<div><divx></div>" (some "div") 0 = some 11 :=
  C6_closing_tag_depth_zero "<div><p>x</p></div>" "div" 0 13
    (by decide) (by decide) (by decide)

/-!  ### C5 — idempotence of replace-merge for tag selectors

The following lemmas relate scans over the merged string
`take e D ++ I ++ drop c D` to scans over `D` and over the inserted
segment `I`, and characterize the leftmost-match searches.  -/

theorem take_min_len (l : Chars) (n : Nat) : l.take (min n l.length) = l.take n := by
  rcases le_total n l.length with h | h
  · rw [min_eq_left h]
  · rw [min_eq_right h, List.take_length, List.take_of_length_le h]

theorem drop_append_len (a b : Chars) (i : Nat) :
    (a ++ b).drop (a.length + i) = b.drop i := by
  rw [List.drop_append_eq_append_drop]
  simp

theorem litAt_eq_of_take (x y pat : Chars) (q r : Nat)
    (h : (x.drop q).take pat.length = (y.drop r).take pat.length) :
    litAt x pat q = litAt y pat r := by
  unfold litAt
  rcases hb : pat.isPrefixOf (y.drop r) with _ | _
  · rcases hb2 : pat.isPrefixOf (x.drop q) with _ | _
    · rfl
    · exfalso
      have h2 := List.isPrefixOf_iff_prefix.mp hb2
      rw [List.prefix_iff_eq_take] at h2
      have : pat.isPrefixOf (y.drop r) = true := by
        rw [List.isPrefixOf_iff_prefix, List.prefix_iff_eq_take]
        rw [h2, h]
        rw [List.length_take]
        exact (take_min_len _ _).symm
      rw [this] at hb
      cases hb
  · have h2 := List.isPrefixOf_iff_prefix.mp hb
    rw [List.prefix_iff_eq_take] at h2
    have : pat.isPrefixOf (x.drop q) = true := by
      rw [List.isPrefixOf_iff_prefix, List.prefix_iff_eq_take]
      rw [h2, ← h]
      rw [List.length_take]
      exact (take_min_len _ _).symm
    rw [this]

/-- Characters of a matched literal: if `pat` occurs at `q`, the char at
`q + k` is the `k`-th char of `pat`. -/
theorem litAt_char (x pat : Chars) (q k : Nat) (hk : k < pat.length)
    (h : litAt x pat q = true) : chAt x (q + k) = pat[k]? := by
  unfold litAt at h
  have h2 := List.isPrefixOf_iff_prefix.mp h
  rw [List.prefix_iff_eq_take] at h2
  unfold chAt
  have h3 : pat[k]? = ((x.drop q).take pat.length)[k]? := by rw [← h2]
  rw [h3]
  rw [List.getElem?_take]
  simp only [hk, if_true]
  rw [List.getElem?_drop]

/-- Left-region scan transfer: inside the prefix `take e D` of the
merged string, drops-and-takes agree with `D`. -/
theorem take_drop_merge_left (D W : Chars) (e q k : Nat)
    (he : e ≤ D.length) (hq : q + k ≤ e) :
    ((D.take e ++ W).drop q).take k = (D.drop q).take k := by
  have hqe : q ≤ (D.take e).length := by
    rw [List.length_take]
    omega
  rw [List.drop_append_of_le_length hqe]
  have hk : k ≤ ((D.take e).drop q).length := by
    rw [List.length_drop, List.length_take]
    omega
  rw [List.take_append_of_le_length hk]
  rw [List.drop_take]
  rw [List.take_take]
  congr 1
  omega

/-- Middle-region scan transfer: inside the inserted segment. -/
theorem take_drop_merge_mid (A I rest : Chars) (j k : Nat)
    (hj : j + k ≤ I.length) :
    ((A ++ (I ++ rest)).drop (A.length + j)).take k = (I.drop j).take k := by
  have h1 : (A ++ (I ++ rest)).drop (A.length + j) = (I ++ rest).drop j := by
    rw [List.drop_append_eq_append_drop]
    simp
  rw [h1]
  have hjI : j ≤ I.length := by omega
  rw [List.drop_append_of_le_length hjI]
  have hk : k ≤ (I.drop j).length := by
    rw [List.length_drop]
    omega
  rw [List.take_append_of_le_length hk]

/-- Suffix transfer: past the inserted segment the merged string is the
dropped tail itself. -/
theorem drop_merge_suffix (A I Q : Chars) (j : Nat) :
    (A ++ (I ++ Q)).drop (A.length + I.length + j) = Q.drop j := by
  have h : A.length + I.length + j = A.length + (I.length + j) := by omega
  rw [h, drop_append_len, drop_append_len]

theorem chAt_of_take_one (x y : Chars) (q r : Nat)
    (h : (x.drop q).take 1 = (y.drop r).take 1) : chAt x q = chAt y r := by
  unfold chAt
  rw [← List.head?_drop, ← List.head?_drop]
  cases hx : x.drop q with
  | nil =>
    cases hy : y.drop r with
    | nil => rfl
    | cons b t =>
      rw [hx, hy] at h
      simp at h
  | cons a t =>
    cases hy : y.drop r with
    | nil =>
      rw [hx, hy] at h
      simp at h
    | cons b t2 =>
      rw [hx, hy] at h
      simp at h
      simp [h]

theorem find?_range'_spec (p : Nat → Bool) :
    ∀ (n s : Nat) (g : Nat), (List.range' s n).find? p = some g ↔
      (s ≤ g ∧ g < s + n ∧ p g = true ∧ ∀ q, s ≤ q → q < g → p q = false) := by
  intro n
  induction n with
  | zero =>
    intro s g
    constructor
    · intro h
      simp [List.range'] at h
    · rintro ⟨h1, h2, -, -⟩
      omega
  | succ m ih =>
    intro s g
    have hr : List.range' s (m + 1) = s :: List.range' (s + 1) m := by
      simpa using List.range'_succ s m 1
    rw [hr, List.find?_cons]
    cases hp : p s with
    | true =>
      simp only
      constructor
      · intro h
        have hsg : s = g := by simpa using h
        subst hsg
        exact ⟨le_refl s, by omega, hp, fun q h1 h2 => by omega⟩
      · rintro ⟨h1, h2, h3, h4⟩
        by_cases hgs : g = s
        · subst hgs
          simp
        · have hc : p s = false := h4 s (le_refl s) (by omega)
          rw [hc] at hp
          cases hp
    | false =>
      simp only
      rw [ih (s + 1) g]
      constructor
      · rintro ⟨h1, h2, h3, h4⟩
        refine ⟨by omega, by omega, h3, ?_⟩
        intro q hq1 hq2
        by_cases hqs : q = s
        · subst hqs
          exact hp
        · exact h4 q (by omega) hq2
      · rintro ⟨h1, h2, h3, h4⟩
        have hgs : g ≠ s := by
          intro hh
          rw [hh] at h3
          rw [h3] at hp
          cases hp
        refine ⟨by omega, by omega, h3, ?_⟩
        intro q hq1 hq2
        exact h4 q (by omega) hq2

theorem firstIdxFrom_eq_some (n start : Nat) (pred : Nat → Bool) (g : Nat) :
    firstIdxFrom n start pred = some g ↔
    (start ≤ g ∧ g < n ∧ pred g = true ∧
     ∀ q, start ≤ q → q < g → pred q = false) := by
  unfold firstIdxFrom
  rw [List.range_eq_range', find?_range'_spec]
  constructor
  · rintro ⟨h1, h2, h3, h4⟩
    rw [Bool.and_eq_true] at h3
    refine ⟨by simpa using h3.1, by omega, h3.2, ?_⟩
    intro q hq1 hq2
    have h5 := h4 q (by omega) hq2
    rw [decide_eq_true hq1] at h5
    simpa using h5
  · rintro ⟨h1, h2, h3, h4⟩
    refine ⟨by omega, by omega, by simp [h1, h3], ?_⟩
    intro q hq1 hq2
    by_cases hs : start ≤ q
    · simp [h4 q hs hq2]
    · simp [hs]

theorem findSome?_range'_eq_some {α : Type} (f : Nat → Option α) :
    ∀ (n s : Nat) (v : α), (List.range' s n).findSome? f = some v ↔
      ∃ p, s ≤ p ∧ p < s + n ∧ f p = some v ∧
        ∀ q, s ≤ q → q < p → f q = none := by
  intro n
  induction n with
  | zero =>
    intro s v
    constructor
    · intro h
      simp [List.range'] at h
    · rintro ⟨p, h1, h2, -, -⟩
      omega
  | succ m ih =>
    intro s v
    have hr : List.range' s (m + 1) = s :: List.range' (s + 1) m := by
      simpa using List.range'_succ s m 1
    rw [hr, List.findSome?_cons]
    cases hf : f s with
    | some w =>
      simp only
      constructor
      · intro h
        have hwv : w = v := by simpa using h
        subst hwv
        exact ⟨s, le_refl s, by omega, hf, fun q h1 h2 => by omega⟩
      · rintro ⟨p, h1, h2, h3, h4⟩
        by_cases hps : p = s
        · subst hps
          rw [hf] at h3
          simpa using h3
        · have hc := h4 s (le_refl s) (by omega)
          rw [hc] at hf
          cases hf
    | none =>
      simp only
      rw [ih (s + 1) v]
      constructor
      · rintro ⟨p, h1, h2, h3, h4⟩
        refine ⟨p, by omega, by omega, h3, ?_⟩
        intro q hq1 hq2
        by_cases hqs : q = s
        · subst hqs
          exact hf
        · exact h4 q (by omega) hq2
      · rintro ⟨p, h1, h2, h3, h4⟩
        have hps : p ≠ s := by
          intro hh
          rw [hh, hf] at h3
          cases h3
        refine ⟨p, by omega, by omega, h3, ?_⟩
        intro q hq1 hq2
        exact h4 q (by omega) hq2

theorem findSome?_range_eq_some {α : Type} (f : Nat → Option α) (n : Nat) (v : α) :
    (List.range n).findSome? f = some v ↔
    ∃ p, p < n ∧ f p = some v ∧ ∀ q, q < p → f q = none := by
  rw [List.range_eq_range', findSome?_range'_eq_some]
  constructor
  · rintro ⟨p, h1, h2, h3, h4⟩
    exact ⟨p, by omega, h3, fun q hq => h4 q (by omega) hq⟩
  · rintro ⟨p, h1, h2, h3⟩
    exact ⟨p, by omega, by omega, h2, fun q _ hq => h3 q hq⟩

theorem fctGo_complete (h tag : Chars) (s : Nat)
    (hdisj : ∀ q, openTagOccAt h tag q = true → closeTagOccAt h tag q = true → False) :
    ∀ (qs : List Nat), qs.Pairwise (· < ·) → ∀ (d : Int) (r : Nat),
      r ∈ qs → s ≤ r → closeTagOccAt h tag r = true →
      d + (cntOpens h tag s qs r : Int) - (cntCloses h tag s qs r : Int) = 1 →
      (∀ q ∈ qs, s ≤ q → closeTagOccAt h tag q = true → q < r →
        d + (cntOpens h tag s qs q : Int) - (cntCloses h tag s qs q : Int) ≠ 1) →
      fctGo h tag s d qs = some r := by
  intro qs
  induction qs with
  | nil =>
    intro _ d r hmem
    cases hmem
  | cons q0 rest ih =>
    intro hpw d r hmem hsr hcr hcount hmin
    have hpw' : rest.Pairwise (· < ·) := (List.pairwise_cons.mp hpw).2
    have hlt : ∀ x ∈ rest, q0 < x := (List.pairwise_cons.mp hpw).1
    have hnotlt : ∀ q ∈ q0 :: rest, ¬(q < q0) := by
      intro q hq
      rcases List.mem_cons.mp hq with h0 | h0
      · subst h0
        omega
      · have := hlt q h0
        omega
    rcases List.mem_cons.mp hmem with hq0 | hrest
    · subst hq0
      have hopenq0 : openTagOccAt h tag r = false := by
        cases hoo : openTagOccAt h tag r with
        | false => rfl
        | true => exact (hdisj r hoo hcr).elim
      rw [cntOpens_zero _ _ _ _ _ hnotlt, cntCloses_zero _ _ _ _ _ hnotlt] at hcount
      have hd : d = 1 := by
        push_cast at hcount
        omega
      have hc1 : ¬((decide (s ≤ r) && openTagOccAt h tag r) = true) := by
        simp [hopenq0]
      have hc2 : (decide (s ≤ r) && closeTagOccAt h tag r) = true := by
        simp [hsr, hcr]
      unfold fctGo
      rw [if_neg hc1, if_pos hc2, if_pos (show d - 1 = 0 by omega)]
    · have hq0r : q0 < r := hlt r hrest
      by_cases hopen : (decide (s ≤ q0) && openTagOccAt h tag q0) = true
      · unfold fctGo
        rw [if_pos hopen]
        rw [Bool.and_eq_true] at hopen
        obtain ⟨hs0, hop⟩ := hopen
        have hcl0 : closeTagOccAt h tag q0 = false := by
          cases hcc : closeTagOccAt h tag q0 with
          | false => rfl
          | true => exact (hdisj q0 hop hcc).elim
        apply ih hpw' (d + 1) r hrest hsr hcr
        · rw [cntOpens_cons, cntCloses_cons] at hcount
          simp only [hs0, hop, hcl0, decide_eq_true hq0r, Bool.and_true,
            Bool.true_and, Bool.and_false, Bool.false_and, if_true, if_false] at hcount
          push_cast at hcount
          omega
        · intro q hq hsq hcq hqr
          have hmin' := hmin q (List.mem_cons_of_mem _ hq) hsq hcq hqr
          rw [cntOpens_cons, cntCloses_cons] at hmin'
          have hq0q : q0 < q := hlt q hq
          simp only [hs0, hop, hcl0, decide_eq_true hq0q, Bool.and_true,
            Bool.true_and, Bool.and_false, Bool.false_and, if_true, if_false] at hmin'
          intro hc
          apply hmin'
          push_cast at hc ⊢
          omega
      · by_cases hclose : (decide (s ≤ q0) && closeTagOccAt h tag q0) = true
        · unfold fctGo
          rw [if_neg hopen, if_pos hclose]
          rw [Bool.and_eq_true] at hclose
          obtain ⟨hs0, hcl⟩ := hclose
          have hop0 : openTagOccAt h tag q0 = false := by
            cases hoo : openTagOccAt h tag q0 with
            | false => rfl
            | true => exact (hopen (by simp [hs0, hoo])).elim
          have hminq0 := hmin q0 (List.mem_cons_self _ _) (by simpa using hs0) hcl hq0r
          rw [cntOpens_zero _ _ _ _ _ hnotlt, cntCloses_zero _ _ _ _ _ hnotlt] at hminq0
          have hd1 : ¬(d - 1 = 0) := by
            push_cast at hminq0
            omega
          rw [if_neg hd1]
          apply ih hpw' (d - 1) r hrest hsr hcr
          · rw [cntOpens_cons, cntCloses_cons] at hcount
            simp only [hs0, hcl, hop0, decide_eq_true hq0r, Bool.and_true,
              Bool.true_and, Bool.and_false, Bool.false_and, if_true, if_false] at hcount
            push_cast at hcount
            omega
          · intro q hq hsq hcq hqr
            have hmin' := hmin q (List.mem_cons_of_mem _ hq) hsq hcq hqr
            rw [cntOpens_cons, cntCloses_cons] at hmin'
            have hq0q : q0 < q := hlt q hq
            simp only [hs0, hcl, hop0, decide_eq_true hq0q, Bool.and_true,
              Bool.true_and, Bool.and_false, Bool.false_and, if_true, if_false] at hmin'
            intro hc
            apply hmin'
            push_cast at hc ⊢
            omega
        · have ho' : (decide (s ≤ q0) && openTagOccAt h tag q0) = false := by
            cases hbb : (decide (s ≤ q0) && openTagOccAt h tag q0) with
            | false => rfl
            | true => exact (hopen hbb).elim
          have hc' : (decide (s ≤ q0) && closeTagOccAt h tag q0) = false := by
            cases hbb : (decide (s ≤ q0) && closeTagOccAt h tag q0) with
            | false => rfl
            | true => exact (hclose hbb).elim
          unfold fctGo
          rw [if_neg hopen, if_neg hclose]
          apply ih hpw' d r hrest hsr hcr
          · rw [cntOpens_cons, cntCloses_cons] at hcount
            simp only [ho', hc', Bool.false_and, if_false] at hcount
            push_cast at hcount
            omega
          · intro q hq hsq hcq hqr
            have hmin' := hmin q (List.mem_cons_of_mem _ hq) hsq hcq hqr
            rw [cntOpens_cons, cntCloses_cons] at hmin'
            simp only [ho', hc', Bool.false_and, if_false] at hmin'
            intro hc
            apply hmin'
            push_cast at hc ⊢
            omega

theorem firstIdxFrom_eq_none (n start : Nat) (pred : Nat → Bool) :
    firstIdxFrom n start pred = none ↔
    ∀ q, start ≤ q → q < n → pred q = false := by
  unfold firstIdxFrom
  rw [List.find?_eq_none]
  constructor
  · intro h q h1 h2
    have h3 := h q (List.mem_range.mpr h2)
    cases hp : pred q with
    | false => rfl
    | true => exact (h3 (by simp [h1, hp])).elim
  · intro h x hx
    intro hc
    rw [Bool.and_eq_true] at hc
    have h1 : start ≤ x := by simpa using hc.1
    rw [h x h1 (List.mem_range.mp hx)] at hc
    exact absurd hc.2 (by simp)

theorem litAt_append_prefix (hay p q : Chars) (i : Nat)
    (h : litAt hay (p ++ q) i = true) : litAt hay p i = true := by
  unfold litAt at h ⊢
  rw [List.isPrefixOf_iff_prefix] at h ⊢
  exact (p.prefix_append q).trans h

theorem charAtIs_congr (x y : Chars) (q r : Nat) (p : Char → Bool)
    (h : chAt x q = chAt y r) : charAtIs x q p = charAtIs y r p := by
  unfold chAt at h
  unfold charAtIs
  rw [h]

theorem cntCloses_zero_of (h tag : Chars) (s : Nat) (qs : List Nat) (bound : Nat)
    (hq : ∀ q ∈ qs, s ≤ q → q < bound → closeTagOccAt h tag q = false) :
    cntCloses h tag s qs bound = 0 := by
  unfold cntCloses
  rw [List.length_eq_zero, List.filter_eq_nil_iff]
  intro a ha
  by_cases h1 : s ≤ a
  · by_cases h2 : a < bound
    · simp [hq a ha h1 h2]
    · simp [h2]
  · simp [h1]

theorem cntOpens_one_of (h tag : Chars) (s n bound g : Nat)
    (hgn : g < n) (hsg : s ≤ g) (hgb : g < bound)
    (hocc : openTagOccAt h tag g = true)
    (hother : ∀ q, s ≤ q → q < bound → openTagOccAt h tag q = true → q = g) :
    cntOpens h tag s (List.range n) bound = 1 := by
  unfold cntOpens
  have hcond : ∀ q, (decide (s ≤ q) && openTagOccAt h tag q && decide (q < bound))
      = (q == g) := by
    intro q
    by_cases hqg : q = g
    · subst hqg
      simp [hsg, hocc, hgb]
    · cases hb : (decide (s ≤ q) && openTagOccAt h tag q && decide (q < bound)) with
      | false => simp [hqg]
      | true =>
        rw [Bool.and_eq_true, Bool.and_eq_true] at hb
        exact absurd (hother q (by simpa using hb.1.1) (by simpa using hb.2) hb.1.2) hqg
  have hfe : (List.range n).filter
        (fun q => decide (s ≤ q) && openTagOccAt h tag q && decide (q < bound))
      = (List.range n).filter (fun q => q == g) :=
    List.filter_congr (fun x _ => hcond x)
  rw [hfe]
  have hc : ((List.range n).filter (fun q => q == g)).length
      = (List.range n).count g := by
    rw [List.count_eq_countP, List.countP_eq_length_filter]
  rw [hc]
  exact List.count_eq_one_of_mem (List.nodup_range n) (List.mem_range.mpr hgn)

theorem litAt_merge_left (Dl M pat : Chars) (e q : Nat) (he : e ≤ Dl.length)
    (hq : q + pat.length ≤ e) :
    litAt (Dl.take e ++ M) pat q = litAt Dl pat q :=
  litAt_eq_of_take _ _ _ _ _ (take_drop_merge_left Dl M e q pat.length he hq)

theorem chAt_merge_left (Dl M : Chars) (e q : Nat) (he : e ≤ Dl.length)
    (hq : q + 1 ≤ e) : chAt (Dl.take e ++ M) q = chAt Dl q :=
  chAt_of_take_one _ _ _ _ (take_drop_merge_left Dl M e q 1 he hq)

theorem drop_merge_at (Dl M : Chars) (e j : Nat) (he : e ≤ Dl.length) :
    (Dl.take e ++ M).drop (e + j) = M.drop j := by
  have h2 := drop_append_len (Dl.take e) M j
  rw [List.length_take, min_eq_left he] at h2
  exact h2

theorem litAt_merge_suffix (Dl M pat : Chars) (e j : Nat) (he : e ≤ Dl.length) :
    litAt (Dl.take e ++ M) pat (e + j) = litAt M pat j := by
  unfold litAt
  rw [drop_merge_at Dl M e j he]

theorem execSelectorPattern_tagPat_iff (T0 html : String) (s e : Nat) (tg : String) :
    execSelectorPattern (SelPattern.tagPat T0) html = some (s, e, tg) ↔
    ∃ g, tg = String.mk (lowerChars T0.data) ∧ e = g + 1 ∧
      s < (lowerChars html.data).length ∧
      litAt (lowerChars html.data) ('<' :: lowerChars T0.data) s = true ∧
      firstGtFrom (lowerChars html.data)
        (s + 1 + (lowerChars T0.data).length) = some g ∧
      ∀ q, q < s →
        tagOpenMatchAt (lowerChars html.data) (lowerChars T0.data) q = none := by
  simp only [execSelectorPattern]
  rw [findSome?_range_eq_some]
  constructor
  · rintro ⟨p, hp, hmap, hmin⟩
    cases hm : tagOpenMatchAt (lowerChars html.data) (lowerChars T0.data) p with
    | none =>
      rw [hm] at hmap
      cases hmap
    | some r =>
      rw [hm] at hmap
      rw [Option.map_some'] at hmap
      injection hmap with hmap2
      have hps : p = s := congrArg Prod.fst hmap2
      have hrest : (r.1, String.mk r.2) = (e, tg) := congrArg Prod.snd hmap2
      have hre : r.1 = e := congrArg Prod.fst hrest
      have hrt : String.mk r.2 = tg := congrArg Prod.snd hrest
      rw [hps] at hm hp hmin
      unfold tagOpenMatchAt at hm
      by_cases hlit : litAt (lowerChars html.data)
          ('<' :: lowerChars T0.data) s = true
      · rw [if_pos hlit] at hm
        cases hg : firstGtFrom (lowerChars html.data)
            (s + 1 + (lowerChars T0.data).length) with
        | none =>
          rw [hg] at hm
          cases hm
        | some g =>
          rw [hg] at hm
          have hr : r = (g + 1, lowerChars T0.data) := by
            injection hm with h1
            exact h1.symm
          refine ⟨g, ?_, ?_, hp, hlit, rfl, ?_⟩
          · rw [← hrt, hr]
          · rw [← hre, hr]
          · intro q hq
            have := hmin q hq
            cases hm2 : tagOpenMatchAt (lowerChars html.data)
                (lowerChars T0.data) q with
            | none => rfl
            | some r2 =>
              rw [hm2] at this
              simp at this
      · rw [if_neg hlit] at hm
        cases hm
  · rintro ⟨g, htg, he, hsl, hlit, hg, hmin⟩
    refine ⟨s, hsl, ?_, ?_⟩
    · have hm : tagOpenMatchAt (lowerChars html.data) (lowerChars T0.data) s
          = some (g + 1, lowerChars T0.data) := by
        unfold tagOpenMatchAt
        rw [if_pos hlit, hg]
      rw [hm, Option.map_some', htg, he]
    · intro q hq
      rw [hmin q hq]
      rfl

theorem mergeHTMLFragment_replace_eq (full frag sel : String) (pat : SelPattern)
    (s e c : Nat) (tg : String)
    (hfe : full.data ≠ []) (hge : frag.data ≠ []) (hse : sel.data ≠ [])
    (hpat : buildSelectorPattern sel = some pat)
    (hexec : execSelectorPattern pat full = some (s, e, tg))
    (hfct : findClosingTag full (tagNameOfPat pat) s = some c) :
    mergeHTMLFragment full frag sel "replace" =
    String.mk (full.data.take e ++ ('\n' :: frag.data) ++ ('\n' :: full.data.drop c)) := by
  have hf' : full.data.isEmpty = false := by
    cases h : full.data with
    | nil => exact absurd h hfe
    | cons a l => rfl
  have hg' : frag.data.isEmpty = false := by
    cases h : frag.data with
    | nil => exact absurd h hge
    | cons a l => rfl
  have hs' : sel.data.isEmpty = false := by
    cases h : sel.data with
    | nil => exact absurd h hse
    | cons a l => rfl
  simp only [mergeHTMLFragment, hf', hg', hs', hpat, hexec, hfct,
    Bool.false_eq_true, if_false, Bool.or_self, Bool.or_false, Bool.false_or]
  rw [if_pos trivial]

theorem drop_nl_block (l m : Chars) :
    ('\n' :: (l ++ '\n' :: m)).drop (l.length + 2) = m := by
  show ('\n' :: (l ++ '\n' :: m)).drop (l.length + 1 + 1) = m
  rw [List.drop_succ_cons]
  have h1 := drop_append_len l ('\n' :: m) 1
  rw [h1]
  rfl

/-- Core stability of the tag-selector scans under a replace-merge:
in the merged string `take e Dl ++ "\n" ++ mF ++ "\n" ++ drop c Dl`
the leftmost open-tag match is unchanged (same position `s`, same
first '>' at `g`), and the depth walk closes at the start of the
retained suffix. -/
theorem tag_scan_stable (Dl mF T : Chars) (s e c g : Nat)
    (hTne : T ≠ []) (hTw : T.all wordChar = true)
    (heDl : e ≤ Dl.length) (hclen : c < Dl.length)
    (he : e = g + 1) (hg1 : s + 1 + T.length ≤ g) (hg2 : g < Dl.length)
    (hg3 : charAtIs Dl g (fun ch => ch = '>') = true)
    (hg4 : ∀ q, s + 1 + T.length ≤ q → q < g →
      charAtIs Dl q (fun ch => ch = '>') = false)
    (hlitD : litAt Dl ('<' :: T) s = true)
    (hminD : ∀ q, q < s → tagOpenMatchAt Dl T q = none)
    (hsopen : openTagOccAt Dl T s = true)
    (hclosec : closeTagOccAt Dl T c = true)
    (hnolt : ∀ q, q < e → s < q → chAt Dl q ≠ some '<')
    (hIF : ∀ j, j < mF.length + 2 →
      litAt ('\n' :: (mF ++ '\n' :: Dl.drop c)) ('<' :: T) j = false ∧
      litAt ('\n' :: (mF ++ '\n' :: Dl.drop c)) ('<' :: '/' :: T) j = false) :
    (∀ q, q < s →
      tagOpenMatchAt (Dl.take e ++ ('\n' :: (mF ++ '\n' :: Dl.drop c))) T q = none) ∧
    litAt (Dl.take e ++ ('\n' :: (mF ++ '\n' :: Dl.drop c))) ('<' :: T) s = true ∧
    firstGtFrom (Dl.take e ++ ('\n' :: (mF ++ '\n' :: Dl.drop c)))
      (s + 1 + T.length) = some g ∧
    fctGo (Dl.take e ++ ('\n' :: (mF ++ '\n' :: Dl.drop c))) T s 0
      (List.range (Dl.take e ++ ('\n' :: (mF ++ '\n' :: Dl.drop c))).length)
      = some (e + (mF.length + 2)) := by
  set M := '\n' :: (mF ++ '\n' :: Dl.drop c) with hM
  set X := Dl.take e ++ M with hX
  have hXlen : X.length = e + (mF.length + 2 + (Dl.length - c)) := by
    rw [hX, hM]
    simp only [List.length_append, List.length_take, List.length_cons,
      List.length_drop, min_eq_left heDl]
    omega
  have hMdrop : M.drop (mF.length + 2) = Dl.drop c := by
    rw [hM]
    exact drop_nl_block mF (Dl.drop c)
  -- transfer of the literal at s
  have hlitX : litAt X ('<' :: T) s = true := by
    rw [hX, litAt_merge_left Dl M ('<' :: T) e s heDl
      (by simp only [List.length_cons]; omega)]
    exact hlitD
  -- the open occurrence at s in X
  have hsopen' := hsopen
  unfold openTagOccAt at hsopen'
  rw [Bool.and_eq_true] at hsopen'
  have hopenX : openTagOccAt X T s = true := by
    unfold openTagOccAt
    rw [Bool.and_eq_true]
    refine ⟨hlitX, ?_⟩
    rw [hX, charAtIs_congr _ _ _ _ _ (chAt_merge_left Dl M e _ heDl (by omega))]
    exact hsopen'.2
  -- leftmost-match stability
  have hminX : ∀ q, q < s → tagOpenMatchAt X T q = none := by
    intro q hq
    have hlitDq : litAt Dl ('<' :: T) q = false := by
      cases hl : litAt Dl ('<' :: T) q with
      | false => rfl
      | true =>
        exfalso
        have hm := hminD q hq
        unfold tagOpenMatchAt at hm
        rw [if_pos hl] at hm
        cases hgq : firstGtFrom Dl (q + 1 + T.length) with
        | some g2 =>
          rw [hgq] at hm
          cases hm
        | none =>
          unfold firstGtFrom at hgq
          rw [firstIdxFrom_eq_none] at hgq
          have h5 := hgq g (by omega) hg2
          rw [hg3] at h5
          cases h5
    have hlitXq : litAt X ('<' :: T) q = false := by
      rw [hX, litAt_merge_left Dl M ('<' :: T) e q heDl
        (by simp only [List.length_cons]; omega)]
      exact hlitDq
    unfold tagOpenMatchAt
    rw [if_neg (by simp [hlitXq])]
  -- the '>' search is unchanged
  have hgtX : firstGtFrom X (s + 1 + T.length) = some g := by
    unfold firstGtFrom
    rw [firstIdxFrom_eq_some]
    refine ⟨hg1, by omega, ?_, ?_⟩
    · rw [hX, charAtIs_congr _ _ _ _ _ (chAt_merge_left Dl M e g heDl (by omega))]
      exact hg3
    · intro q hq1 hq2
      rw [hX, charAtIs_congr _ _ _ _ _ (chAt_merge_left Dl M e q heDl (by omega))]
      exact hg4 q hq1 hq2
  -- the close occurrence at the suffix boundary
  have hcloseX : closeTagOccAt X T (e + (mF.length + 2)) = true := by
    unfold closeTagOccAt
    rw [hX, litAt_merge_suffix Dl M _ e _ heDl]
    unfold litAt
    rw [hMdrop]
    unfold closeTagOccAt litAt at hclosec
    exact hclosec
  -- no close occurrence strictly before it (from s on)
  have hnoclose : ∀ q, s ≤ q → q < e + (mF.length + 2) →
      closeTagOccAt X T q = false := by
    intro q hq1 hq2
    cases hcc : closeTagOccAt X T q with
    | false => rfl
    | true =>
      exfalso
      by_cases hqs : q = s
      · subst hqs
        exact open_close_disjoint X T hTne hTw q hopenX hcc
      · have hq1' : s < q := lt_of_le_of_ne hq1 (Ne.symm hqs)
        by_cases hqe : q < e
        · have h1 : litAt X ('<' :: '/' :: (T ++ ['>'])) q = true := hcc
          have hlt0 := litAt_char X _ q 0 (by simp) h1
          have hlt : chAt X q = some '<' := by simpa using hlt0
          rw [hX, chAt_merge_left Dl M e q heDl (by omega)] at hlt
          exact hnolt q hqe hq1' hlt
        · have hj := hIF (q - e) (by omega)
          have h1 : litAt X ('<' :: '/' :: (T ++ ['>'])) q = true := hcc
          have h2 : litAt X ('<' :: '/' :: T) q = true := by
            apply litAt_append_prefix X _ ['>']
            have h3 : ('<' :: '/' :: T) ++ ['>'] = '<' :: '/' :: (T ++ ['>']) := by
              simp
            rw [h3]
            exact h1
          rw [hX, show q = e + (q - e) from by omega,
            litAt_merge_suffix Dl M _ e _ heDl] at h2
          rw [hj.2] at h2
          cases h2
  -- any open occurrence in [s, close) is at s
  have honlyopen : ∀ q, s ≤ q → q < e + (mF.length + 2) →
      openTagOccAt X T q = true → q = s := by
    intro q hq1 hq2 ho
    by_contra hqs
    have hq1' : s < q := lt_of_le_of_ne hq1 (Ne.symm hqs)
    have hlitq : litAt X ('<' :: T) q = true := by
      unfold openTagOccAt at ho
      rw [Bool.and_eq_true] at ho
      exact ho.1
    by_cases hqe : q < e
    · have hlt0 := litAt_char X _ q 0 (by simp) hlitq
      have hlt : chAt X q = some '<' := by simpa using hlt0
      rw [hX, chAt_merge_left Dl M e q heDl (by omega)] at hlt
      exact hnolt q hqe hq1' hlt
    · have hj := hIF (q - e) (by omega)
      rw [hX, show q = e + (q - e) from by omega,
        litAt_merge_suffix Dl M _ e _ heDl] at hlitq
      rw [hj.1] at hlitq
      cases hlitq
  have hdisjX : ∀ q, openTagOccAt X T q = true →
      closeTagOccAt X T q = true → False :=
    fun q ho hc => open_close_disjoint X T hTne hTw q ho hc
  refine ⟨hminX, hlitX, hgtX, ?_⟩
  apply fctGo_complete X T s hdisjX _ (List.pairwise_lt_range _) 0 _
  · exact List.mem_range.mpr (by omega)
  · omega
  · exact hcloseX
  · rw [cntOpens_one_of X T s X.length (e + (mF.length + 2)) s
      (by omega) (le_refl s) (by omega) hopenX honlyopen]
    rw [cntCloses_zero_of X T s (List.range X.length) (e + (mF.length + 2))
      (fun q _ hq1 hq2 => hnoclose q hq1 hq2)]
    norm_num
  · intro q hqmem hsq hclq hqlt
    rw [hnoclose q hsq hqlt] at hclq
    cases hclq

/-- C5 (amended): replace-merge IS idempotent for plain tag-name
selectors whose match and fragment do not interfere with the re-scan:
the document has no stray angle bracket strictly inside the matched
open tag, and the inserted newline-fragment-newline block contains no
occurrence of the open-tag or close-tag prefix of the selector tag.
Under these conditions a second replace-merge with the same fragment
and selector reproduces the first merge's output exactly. -/
theorem C5_replace_idempotent_for_tag_selector
    (D F S T0 : String) (s e c : Nat) (tg : String)
    (hDne : D.data ≠ []) (hFne : F.data ≠ []) (hSne : S.data ≠ [])
    (hpat : buildSelectorPattern S = some (SelPattern.tagPat T0))
    (hTfix : lowerChars (lowerChars T0.data) = lowerChars T0.data)
    (hTne : lowerChars T0.data ≠ [])
    (hTw : (lowerChars T0.data).all wordChar = true)
    (hexec : execSelectorPattern (SelPattern.tagPat T0) D = some (s, e, tg))
    (hfct : findClosingTag D (some (toLowerStr T0)) s = some c)
    (hsopen : openTagOccAt (lowerChars D.data) (lowerChars T0.data) s = true)
    (hnolt : ∀ q, q < e → s < q → chAt (lowerChars D.data) q ≠ some '<')
    (hIF : ∀ j, j < F.data.length + 2 →
      litAt ('\n' :: (lowerChars F.data ++ '\n' :: (lowerChars D.data).drop c))
        ('<' :: lowerChars T0.data) j = false ∧
      litAt ('\n' :: (lowerChars F.data ++ '\n' :: (lowerChars D.data).drop c))
        ('<' :: '/' :: lowerChars T0.data) j = false) :
    mergeHTMLFragment (mergeHTMLFragment D F S "replace") F S "replace" =
    mergeHTMLFragment D F S "replace" := by
  have hlenF : (lowerChars F.data).length = F.data.length := by
    unfold lowerChars
    exact List.length_map _ _
  have hlenD : (lowerChars D.data).length = D.data.length := by
    unfold lowerChars
    exact List.length_map _ _
  obtain ⟨g, htg, he, hslen, hlitD, hgt, hmin0⟩ :=
    (execSelectorPattern_tagPat_iff T0 D s e tg).mp hexec
  unfold firstGtFrom at hgt
  rw [firstIdxFrom_eq_some] at hgt
  obtain ⟨hg1, hg2, hg3, hg4⟩ := hgt
  have heDl : e ≤ (lowerChars D.data).length := by omega
  have heD : e ≤ D.data.length := by omega
  have hdisjD : ∀ q, openTagOccAt (lowerChars D.data) (lowerChars T0.data) q = true →
      closeTagOccAt (lowerChars D.data) (lowerChars T0.data) q = true → False :=
    fun q ho hc => open_close_disjoint _ _ hTne hTw q ho hc
  have hfct' : fctGo (lowerChars D.data) (lowerChars T0.data) s 0
      (List.range (lowerChars D.data).length) = some c := by
    simp only [findClosingTag, toLowerStr] at hfct
    rw [hTfix] at hfct
    exact hfct
  obtain ⟨hcmem, hsc, hclosec, -, -⟩ :=
    fctGo_spec (lowerChars D.data) (lowerChars T0.data) s hdisjD _
      (List.pairwise_lt_range _) 0 c hfct'
  have hclen : c < (lowerChars D.data).length := List.mem_range.mp hcmem
  have hR1eq := mergeHTMLFragment_replace_eq D F S (SelPattern.tagPat T0) s e c tg
    hDne hFne hSne hpat hexec hfct
  have hR1data : (mergeHTMLFragment D F S "replace").data
      = D.data.take e ++ ('\n' :: F.data) ++ ('\n' :: D.data.drop c) := by
    rw [hR1eq]
  have hR1ne : (mergeHTMLFragment D F S "replace").data ≠ [] := by
    rw [hR1data]
    simp
  have hlow : lowerChars (mergeHTMLFragment D F S "replace").data
      = (lowerChars D.data).take e ++
        ('\n' :: (lowerChars F.data ++ '\n' :: (lowerChars D.data).drop c)) := by
    rw [hR1data]
    unfold lowerChars
    simp only [List.map_append, List.map_cons, List.map_take, List.map_drop]
    have hnl : Char.toLower '\n' = '\n' := by decide
    rw [hnl]
    simp [List.append_assoc]
  obtain ⟨hminX, hlitX, hgtX, hfctX⟩ :=
    tag_scan_stable (lowerChars D.data) (lowerChars F.data) (lowerChars T0.data)
      s e c g hTne hTw heDl hclen he hg1 hg2 hg3 hg4 hlitD
      (fun q hq => hmin0 q hq) hsopen hclosec hnolt
      (by rw [hlenF]; exact hIF)
  have hexecR1 : execSelectorPattern (SelPattern.tagPat T0)
      (mergeHTMLFragment D F S "replace") = some (s, e, tg) := by
    rw [execSelectorPattern_tagPat_iff]
    refine ⟨g, htg, he, ?_, ?_, ?_, ?_⟩
    · rw [hlow, List.length_append, List.length_take, min_eq_left heDl]
      omega
    · rw [hlow]
      exact hlitX
    · rw [hlow]
      exact hgtX
    · intro q hq
      rw [hlow]
      exact hminX q hq
  have hfctR1 : findClosingTag (mergeHTMLFragment D F S "replace")
      (some (toLowerStr T0)) s = some (e + (F.data.length + 2)) := by
    simp only [findClosingTag, toLowerStr]
    rw [hTfix, hlow]
    rw [← hlenF]
    exact hfctX
  have hR2eq := mergeHTMLFragment_replace_eq (mergeHTMLFragment D F S "replace") F S
    (SelPattern.tagPat T0) s e (e + (F.data.length + 2)) tg
    hR1ne hFne hSne hpat hexecR1 hfctR1
  rw [hR2eq, hR1data, hR1eq]
  congr 1
  have htake : ((D.data.take e ++ ('\n' :: F.data)) ++ ('\n' :: D.data.drop c)).take e
      = D.data.take e := by
    rw [List.append_assoc]
    rw [List.take_append_of_le_length (by rw [List.length_take]; omega)]
    rw [List.take_take, min_self]
  have hdrop : ((D.data.take e ++ ('\n' :: F.data)) ++ ('\n' :: D.data.drop c)).drop
      (e + (F.data.length + 2)) = D.data.drop c := by
    rw [List.append_assoc]
    have hshape : ('\n' :: F.data) ++ ('\n' :: D.data.drop c)
        = '\n' :: (F.data ++ '\n' :: D.data.drop c) := by
      simp
    rw [hshape]
    rw [drop_merge_at D.data _ e (F.data.length + 2) heD]
    exact drop_nl_block F.data (D.data.drop c)
  rw [htake, hdrop]

/-- C5 counterexample: the selector "div" matches in the document, yet
replace-merging the fragment "<div" twice differs from merging it once.
The first merge inserts an unbalanced open tag, so the second merge's
closing-tag walk never returns to depth zero and the whole first result
gets the fragment appended again. -/
theorem C5_replace_merge_not_idempotent :
    buildSelectorPattern "div" = some (SelPattern.tagPat "div") ∧
    (execSelectorPattern (SelPattern.tagPat "div") "<div>old</div>").isSome = true ∧
    mergeHTMLFragment (mergeHTMLFragment "<div>old</div>" "<div" "div" "replace")
        "<div" "div" "replace" ≠
      mergeHTMLFragment "<div>old</div>" "<div" "div" "replace" := by
  refine ⟨by decide, by decide, ?_⟩
  decide

/-- Witness for C5: a non-interfering fragment replace-merged into
`<div>old</div>` by the selector "div" is stable under a second merge. -/
theorem C5_replace_idempotent_for_tag_selector_witness :
    mergeHTMLFragment (mergeHTMLFragment "<div>old</div>" "x" "div" "replace")
        "x" "div" "replace" =
      mergeHTMLFragment "<div>old</div>" "x" "div" "replace" :=
  C5_replace_idempotent_for_tag_selector "<div>old</div>" "x" "div" "div" 0 5 8 "div"
    (by decide) (by decide) (by decide) (by decide) (by decide) (by decide)
    (by decide) (by decide) (by decide) (by decide) (by decide) (by decide)
